import Mathlib

/-!
Fusion: the Connection write engine (connection.go)

A shallow embedding of `Connection` from `connection.go`: the fields guarded by
`conn.lock`, the Go channels the connection has made, the transport, and the
goroutines working on the connection (drain tasks running `writeloop`, callers
waiting in the blocking send of `Write`, and `Close` calls between closing the
transport and taking the lock).  A step of the system is one atomic piece of
the Go code: a critical section under `conn.lock`, one channel operation, one
transport call, or one unlocked read of `conn.running`.
-/

namespace Fusion

/-- The Go type `[]byte`. -/
abbrev Buf := List Nat

/-- The values of the Go `error` interface that reach `conn.closed`. -/
inductive Err where
  /-- `errors.New("close requested")` in `Close`. -/
  | closeRequested
  /-- An error returned by the transport `conn.conn`. -/
  | transport (code : Nat)
  deriving DecidableEq, Repr

/-- Where a value travelling through `outChan` came from (bookkeeping only). -/
inductive Origin where
  /-- The argument of a `WriteNonBlocking` or `Write` call. -/
  | producer
  /-- The buffer `[]byte("goodbye")` sent by `Close`. -/
  | wake
  /-- The zero value a receive yields on a closed and drained channel. -/
  | zero
  deriving DecidableEq, Repr

/-- A value travelling through `outChan`, tagged with its origin. -/
structure Item where
  data : Buf
  origin : Origin
  deriving DecidableEq, Repr

/-- A buffered Go channel of byte buffers. -/
structure Chan where
  buf : List Item
  closed : Bool
  deriving DecidableEq, Repr

/-- The capacity in `make(chan []byte, 4)`. -/
def chanCap : Nat := 4

/-- The bytes of `[]byte("goodbye")`. -/
def goodbye : Buf := [103, 111, 111, 100, 98, 121, 101]

/-- Run-time panics that nothing recovers: they end the process. -/
inductive Fault where
  /-- The `panic("what the christ ...")` of `writeloop`. -/
  | shortWrite
  /-- A send on a closed channel outside the recovered send of `Write`. -/
  | sendOnClosed
  /-- A `close` of a closed channel. -/
  | closeOfClosed
  /-- A `close` of a nil channel. -/
  | closeOfNil
  deriving DecidableEq, Repr

/-- Program points of a goroutine running `writeloop`. -/
inductive DrainPc where
  /-- About to evaluate `<-conn.outChan`. -/
  | recv
  /-- Blocked in the receive on a channel (`none`: the nil channel). -/
  | parked (c : Option Nat)
  /-- Holds `data`, about to call `conn.conn.Write(data)`. -/
  | write (it : Item)
  /-- The write returned a nil error and the full length; about to read `conn.running`. -/
  | check
  /-- The failure branch was chosen with this `err`; about to take `conn.lock`. -/
  | locking (err : Option Err)
  /-- The goroutine has returned. -/
  | exited
  deriving DecidableEq, Repr

/-- Program points of a `Write` call. -/
inductive WriterPc where
  /-- `WriteNonBlocking` returned `(false, nil)`; about to evaluate `conn.outChan <- data`. -/
  | sending (data : Buf)
  /-- Blocked in the send on a channel (`none`: the nil channel). -/
  | parked (c : Option Nat) (data : Buf)
  /-- The call has returned this error. -/
  | returned (err : Option Err)
  deriving DecidableEq, Repr

/-- The connection together with everything that acts on it. -/
structure State where
  /-- Every channel made by `start`, addressed by position. -/
  chans : List Chan
  /-- The field `conn.outChan`: `none` is the nil channel. -/
  outChan : Option Nat
  /-- The field `conn.running`. -/
  running : Bool
  /-- The field `conn.closed`: `none` is the nil error. -/
  closed : Option Err
  /-- Whether `conn.conn.Close()` has been called. -/
  connClosed : Bool
  /-- The goroutines started by `go conn.writeloop()`. -/
  drains : List DrainPc
  /-- The `Write` calls made so far. -/
  writers : List WriterPc
  /-- Closes started by `go conn.Close()` that have not run yet. -/
  closeQueued : Nat
  /-- `Close` calls that have closed the transport and wait for `conn.lock`. -/
  closeWaiting : Nat
  /-- The panic that ended the process, if any. -/
  fault : Option Fault
  /-- Log: every buffer passed to `conn.conn.Write`, with whether the transport was open. -/
  wire : List (Item × Bool)
  /-- Log: the producer buffers whose send on the channel succeeded. -/
  enq : List Buf
  /-- Log: how many times a read was handed to the transport. -/
  reads : Nat
  deriving DecidableEq, Repr

/-- A connection as its creator leaves it: zero-valued fields over an open transport. -/
def init : State :=
  { chans := [], outChan := none, running := false, closed := none, connClosed := false,
    drains := [], writers := [], closeQueued := 0, closeWaiting := 0, fault := none,
    wire := [], enq := [], reads := 0 }

/-- The method `Read`: the result of the transport read is `res`. -/
def Read (s : State) (res : Nat × Option Err) : State × (Nat × Option Err) :=
  match s.closed with
  | some e => (s, (0, some e))
  | none => ({ s with reads := s.reads + 1 }, res)

/-- The method `ReadFull`: the error of `io.ReadFull` on the transport is `res`. -/
def ReadFull (s : State) (res : Option Err) : State × Option Err :=
  match s.closed with
  | some e => (s, some e)
  | none => ({ s with reads := s.reads + 1 }, res)

/-- One attempt to send `it` on channel `c`: an error is the panic of a send on a closed
channel, `none` means the send cannot proceed now (nil channel or full buffer). -/
def chanSend (s : State) (c : Option Nat) (it : Item) : Except Fault (Option State) :=
  match c with
  | none => .ok none
  | some k =>
    match s.chans[k]? with
    | none => .ok none
    | some ch =>
      if ch.closed then .error .sendOnClosed
      else if ch.buf.length < chanCap then
        .ok (some { s with chans := s.chans.set k { ch with buf := ch.buf ++ [it] } })
      else .ok none

/-- The statement `close(conn.outChan)`. -/
def closeOutChan (s : State) : Except Fault State :=
  match s.outChan with
  | none => .error .closeOfNil
  | some k =>
    match s.chans[k]? with
    | none => .error .closeOfNil
    | some ch =>
      if ch.closed then .error .closeOfClosed
      else .ok { s with chans := s.chans.set k { ch with closed := true } }

/-- The method `start`: a fresh channel, `running = true`, and a new drain goroutine. -/
def start (s : State) : State :=
  { s with
    chans := s.chans ++ [{ buf := [], closed := false }]
    outChan := some s.chans.length
    running := true
    drains := s.drains ++ [DrainPc.recv] }

/-- The method `WriteNonBlocking`, one critical section under `conn.lock`. -/
def WriteNonBlocking (s : State) (data : Buf) : State × (Bool × Option Err) :=
  match s.closed with
  | some e => (s, (false, some e))
  | none =>
    let s1 := if s.running then s else start s
    match chanSend s1 s1.outChan { data := data, origin := .producer } with
    | .error f => ({ s1 with fault := some f }, (false, none))
    | .ok (some s2) => ({ s2 with enq := s2.enq ++ [data] }, (true, none))
    | .ok none => (s1, (false, none))

/-- The method `Write` up to its blocking send: the call is entered in `writers`. -/
def Write (s : State) (data : Buf) : State :=
  let r := WriteNonBlocking s data
  match r.2.2 with
  | some e => { r.1 with writers := r.1.writers ++ [WriterPc.returned (some e)] }
  | none =>
    if r.2.1 then { r.1 with writers := r.1.writers ++ [WriterPc.returned none] }
    else { r.1 with writers := r.1.writers ++ [WriterPc.sending data] }

/-- Replace the program point of `Write` call `i`. -/
def setWriter (s : State) (i : Nat) (pc : WriterPc) : State :=
  { s with writers := s.writers.set i pc }

/-- The blocking send `conn.outChan <- data` of `Write` on channel `c`, under the deferred
`recover`: a panic is swallowed and the call returns the zero error. -/
def blockingSend (s : State) (i : Nat) (c : Option Nat) (data : Buf) : State :=
  match chanSend s c { data := data, origin := .producer } with
  | .error _ => setWriter s i (.returned none)
  | .ok (some s1) => setWriter { s1 with enq := s1.enq ++ [data] } i (.returned none)
  | .ok none => setWriter s i (.parked c data)

/-- One step of `Write` call `i` after `WriteNonBlocking` returned `(false, nil)`. -/
def writerStep (s : State) (i : Nat) : State :=
  match s.writers[i]? with
  | some (.sending data) => blockingSend s i s.outChan data
  | some (.parked c data) => blockingSend s i c data
  | _ => s

/-- Replace the program point of drain goroutine `i`. -/
def setDrain (s : State) (i : Nat) (pc : DrainPc) : State :=
  { s with drains := s.drains.set i pc }

/-- The receive `data := <-conn.outChan` of drain goroutine `i` on channel `c`. -/
def chanRecv (s : State) (i : Nat) (c : Option Nat) : State :=
  match c with
  | none => setDrain s i (.parked none)
  | some k =>
    match s.chans[k]? with
    | none => setDrain s i (.parked (some k))
    | some ch =>
      match ch.buf with
      | x :: rest => setDrain { s with chans := s.chans.set k { ch with buf := rest } } i (.write x)
      | [] =>
        if ch.closed then setDrain s i (.write { data := [], origin := .zero })
        else setDrain s i (.parked (some k))

/-- One step of drain goroutine `i` in `writeloop`; `res` is what `conn.conn.Write` returns
when the step is the transport write. -/
def writeloop (s : State) (i : Nat) (res : Nat × Option Err) : State :=
  match s.drains[i]? with
  | none => s
  | some .recv => chanRecv s i s.outChan
  | some (.parked c) => chanRecv s i c
  | some (.write it) =>
    let s1 := { s with wire := s.wire ++ [(it, !s.connClosed)] }
    match res.2 with
    | some e => setDrain s1 i (.locking (some e))
    | none =>
      if res.1 ≠ it.data.length then setDrain { s1 with fault := some .shortWrite } i .exited
      else setDrain s1 i .check
  | some .check =>
    if s.running then setDrain s i .recv else setDrain s i (.locking none)
  | some (.locking err) =>
    let s1 := { s with closed := err }
    match (if s1.running then closeOutChan s1 else .ok s1) with
    | .error f => { s1 with fault := some f }
    | .ok s2 =>
      setDrain { s2 with running := false, closeQueued := s2.closeQueued + 1 } i .exited
  | some .exited => s

/-- The statement `if conn.closed == nil { conn.closed = errors.New("close requested") }`. -/
def latchCause (s : State) : State :=
  match s.closed with
  | none => { s with closed := some Err.closeRequested }
  | some _ => s

/-- The body of `if conn.running { ... }` in `Close`: clear `running`, try the wake send,
close the channel. -/
def stopQueue (s : State) : State :=
  let s2 := { s with running := false }
  match chanSend s2 s2.outChan { data := goodbye, origin := .wake } with
  | .error f => { s2 with fault := some f }
  | .ok r =>
    let s3 := r.getD s2
    match closeOutChan s3 with
    | .error f => { s3 with fault := some f }
    | .ok s4 => s4

/-- The critical section of `Close`, after `conn.lock.Lock()`. -/
def closeLocked (s : State) : State :=
  let s1 := latchCause s
  if s1.running then stopQueue s1 else s1

/-- The statement `conn.conn.Close()`. -/
def closeTransport (s : State) : State :=
  { s with connClosed := true }

/-- The method `Close` run without interruption. -/
def Close (s : State) : State :=
  closeLocked (closeTransport s)

/-- What can happen next. -/
inductive Action where
  /-- A caller runs `Read`. -/
  | read (res : Nat × Option Err)
  /-- A caller runs `ReadFull`. -/
  | readFull (res : Option Err)
  /-- A caller runs `WriteNonBlocking`. -/
  | wnb (data : Buf)
  /-- A caller enters `Write`. -/
  | write (data : Buf)
  /-- `Write` call `i` goes on with its blocking send. -/
  | writer (i : Nat)
  /-- A caller enters `Close` and closes the transport. -/
  | close
  /-- A `Close` started by a drain task closes the transport. -/
  | closeAsync
  /-- A `Close` that has closed the transport runs its critical section. -/
  | closeLock
  /-- Drain goroutine `i` takes a step. -/
  | drain (i : Nat) (res : Nat × Option Err)
  deriving DecidableEq, Repr

/-- One step of the system; a process that has panicked takes no step. -/
def step (a : Action) (s : State) : State :=
  if s.fault.isSome then s else
  match a with
  | .read res => (Read s res).1
  | .readFull res => (ReadFull s res).1
  | .wnb data => (WriteNonBlocking s data).1
  | .write data => Write s data
  | .writer i => writerStep s i
  | .close => { closeTransport s with closeWaiting := s.closeWaiting + 1 }
  | .closeAsync =>
    if s.closeQueued = 0 then s
    else { closeTransport s with
           closeQueued := s.closeQueued - 1, closeWaiting := s.closeWaiting + 1 }
  | .closeLock =>
    if s.closeWaiting = 0 then s
    else closeLocked { s with closeWaiting := s.closeWaiting - 1 }
  | .drain i res => writeloop s i res

/-- Run a schedule from a state. -/
def run (sched : List Action) (s : State) : State :=
  sched.foldl (fun t a => step a t) s

/-- The states a connection can be in. -/
def Reachable (s : State) : Prop :=
  ∃ sched : List Action, s = run sched init

/-- The facts that hold of every reachable state. -/
structure Inv (s : State) : Prop where
  fault_ok : s.fault = none ∨ s.fault = some Fault.shortWrite
  fault_dead : s.fault ≠ none → ∀ pc ∈ s.drains, pc = DrainPc.exited
  run_open : s.running = true →
    s.closed = none ∧ ∃ c ch, s.outChan = some c ∧ s.chans[c]? = some ch ∧ ch.closed = false
  stop_closed : s.running = false →
    ∀ c, s.outChan = some c → ∃ ch, s.chans[c]? = some ch ∧ ch.closed = true
  cap : ∀ ch ∈ s.chans, ch.buf.length ≤ chanCap
  one_live : ∀ (i j : Nat) (pi pj : DrainPc), s.drains[i]? = some pi → s.drains[j]? = some pj →
    pi ≠ DrainPc.exited → pj ≠ DrainPc.exited → i = j
  idle_dead : s.closed = none → s.running = false → ∀ pc ∈ s.drains, pc = DrainPc.exited
  nil_chan : s.outChan = none → s.drains = []

/-- A schedule: one accepted write, the drain task writes it to the open transport, a caller
runs `Close` to completion, and only then the drain task reads `conn.running` and runs its
failure path with the nil error of the successful write. -/
def raceTrace : List Action :=
  [.wnb [1], .drain 0 (0, none), .drain 0 (1, none), .close, .closeLock,
   .drain 0 (0, none), .drain 0 (0, none)]

/-- A schedule: one accepted write, a caller runs `Close` to completion, then the drain
task takes the buffer, its write on the closed transport fails with an error, and it runs
its failure path. -/
def failTrace : List Action :=
  [.wnb [1], .close, .closeLock, .drain 0 (0, none), .drain 0 (0, some (Err.transport 5)),
   .drain 0 (0, none)]

/-- Every channel of `s` is still there in `t` with the same closed flag. -/
def SameFlags (s t : State) : Prop :=
  ∀ (c : Nat) (ch : Chan), s.chans[c]? = some ch →
    ∃ ch1 : Chan, t.chans[c]? = some ch1 ∧ ch1.closed = ch.closed

/-- A step that closes channel `k`: it was the open `conn.outChan` of a running connection,
and the step clears `running`. -/
def ClosesChan (s t : State) (k : Nat) : Prop :=
  ∃ ch b, s.outChan = some k ∧ s.chans[k]? = some ch ∧ ch.closed = false ∧
    s.running = true ∧ t.running = false ∧
    t.chans = s.chans.set k { buf := b, closed := true }

/-- The connection is terminated with cause `e` and no drain goroutine is left. -/
def Halted (s : State) (e : Err) : Prop :=
  s.closed = some e ∧ s.running = false ∧ ∀ pc ∈ s.drains, pc = DrainPc.exited

/-- Whether the action is a step of drain goroutine `i`. -/
def Action.drainOf (a : Action) (i : Nat) : Bool :=
  match a with
  | .drain j _ => j == i
  | _ => false

/-- A schedule for scenario B: four accepted writes fill the queue, a `Write` call finds it
full and parks in its blocking send, a caller runs `Close` to completion, and the parked
`Write` call goes on. -/
def blockedTrace : List Action :=
  [.wnb [1], .wnb [2], .wnb [3], .wnb [4], .write [5], .writer 0, .close, .closeLock, .writer 0]

/-- The `Write` call `i` waits on the closed channel `c`, or has returned the nil error. -/
def WokenWriter (s : State) (i c : Nat) (b : Buf) : Prop :=
  (∃ ch : Chan, s.chans[c]? = some ch ∧ ch.closed = true) ∧
  (s.writers[i]? = some (WriterPc.parked (some c) b) ∨
    s.writers[i]? = some (WriterPc.returned none))

/-- Whether the action is a caller entering `Close`. -/
def Action.callsClose (a : Action) : Bool :=
  match a with
  | .close => true
  | _ => false

/-- The buffers passed to `conn.conn.Write` so far, in order. -/
def wireData (s : State) : List Buf :=
  s.wire.map (fun e => e.1.data)

/-- The buffer a drain goroutine has received and not yet written. -/
def inflight (pc : DrainPc) : List Buf :=
  match pc with
  | .write it => [it.data]
  | _ => []

/-- No write has been made yet. -/
def FifoIdle (s : State) : Prop :=
  s.closed = none ∧ s.running = false ∧ s.closeQueued = 0 ∧ s.closeWaiting = 0 ∧
  s.outChan = none ∧ s.chans = [] ∧ s.drains = [] ∧ s.wire = [] ∧ s.enq = []

/-- One channel, one drain goroutine, and every accepted buffer is on the wire, in the
hands of the drain goroutine, or in the channel, in this order. -/
def FifoRunning (s : State) : Prop :=
  s.closed = none ∧ s.running = true ∧ s.closeQueued = 0 ∧ s.closeWaiting = 0 ∧
  s.outChan = some 0 ∧
  ∃ (ch : Chan) (pc : DrainPc), s.chans = [ch] ∧ ch.closed = false ∧ s.drains = [pc] ∧
    pc ≠ DrainPc.locking none ∧
    s.enq = wireData s ++ inflight pc ++ ch.buf.map Item.data

/-- The drain goroutine has terminated the connection. -/
def FifoDone (s : State) : Prop :=
  s.closed ≠ none ∧ s.running = false ∧ (∀ pc ∈ s.drains, pc = DrainPc.exited) ∧
  wireData s <+: s.enq

/-- The shape of the states of runs in which no caller calls `Close`. -/
def Fifo (s : State) : Prop :=
  FifoIdle s ∨ FifoRunning s ∨ FifoDone s

/-- What holds as long as the transport has not been closed. -/
structure OpenInv (s : State) : Prop where
  noWaiting : s.closeWaiting = 0
  items : ∀ ch ∈ s.chans, ∀ x ∈ ch.buf, x.origin = Origin.producer
  pcs : ∀ pc ∈ s.drains, pc ≠ DrainPc.locking none ∧
    ∀ it, pc = DrainPc.write it → it.origin = Origin.producer
  stopped : s.running = false → ∀ pc ∈ s.drains, pc = DrainPc.exited
  allOpen : s.closed = none → ∀ ch ∈ s.chans, ch.closed = false

/-- Where buffers that no producer supplied can be. -/
structure WireInv (s : State) : Prop where
  wire_ok : ∀ e ∈ s.wire, e.2 = true → e.1.origin = Origin.producer
  wake_last : ∀ ch ∈ s.chans, (ch.closed = false → ∀ x ∈ ch.buf, x.origin = Origin.producer) ∧
    ∀ x ∈ ch.buf.dropLast, x.origin = Origin.producer
  open_ok : s.connClosed = false → OpenInv s

/-- A schedule in which the drain task writes a buffer, waits on the empty queue, is woken
by the "goodbye" of `Close` and passes it to the transport. -/
def wakeTrace : List Action :=
  [.wnb [1], .drain 0 (0, none), .drain 0 (1, none), .drain 0 (0, none), .drain 0 (0, none),
   .close, .closeLock, .drain 0 (0, none), .drain 0 (7, none)]

theorem run_cons (a : Action) (sched : List Action) (s : State) :
    run (a :: sched) s = run sched (step a s) := rfl

theorem inv_init : Inv init := by
  constructor <;> simp [init]

theorem getElem?_set_of_some {α : Type} {l : List α} {k : Nat} {x : α} (y : α) (c : Nat)
    (h : l[k]? = some x) : (l.set k y)[c]? = if c = k then some y else l[c]? := by
  have hk : k < l.length := by
    rcases Nat.lt_or_ge k l.length with h1 | h1
    · exact h1
    · simp [List.getElem?_eq_none h1] at h
  by_cases hc : c = k
  · subst hc; simp [hk]
  · simp [hc, List.getElem?_set_ne (Ne.symm hc)]

theorem forall_mem_set {α : Type} {P : α → Prop} {l : List α} (k : Nat) {y : α}
    (h : ∀ x ∈ l, P x) (hy : P y) : ∀ x ∈ l.set k y, P x := by
  intro x hx
  rcases List.mem_or_eq_of_mem_set hx with h1 | h1
  · exact h x h1
  · exact h1 ▸ hy

theorem chanSend_some {s s1 : State} {c : Option Nat} {it : Item}
    (h : chanSend s c it = .ok (some s1)) :
    ∃ k ch, c = some k ∧ s.chans[k]? = some ch ∧ ch.closed = false ∧ ch.buf.length < chanCap ∧
      s1 = { s with chans := s.chans.set k { ch with buf := ch.buf ++ [it] } } := by
  unfold chanSend at h
  split at h
  · simp at h
  · rename_i k
    split at h
    · simp at h
    · rename_i ch hch
      split at h
      · simp at h
      · split at h
        · rename_i hcl hlen
          refine ⟨k, ch, rfl, hch, by simpa using hcl, hlen, ?_⟩
          simp at h
          exact h.symm
        · simp at h

theorem closeOutChan_ok {s s1 : State} (h : closeOutChan s = .ok s1) :
    ∃ k ch, s.outChan = some k ∧ s.chans[k]? = some ch ∧ ch.closed = false ∧
      s1 = { s with chans := s.chans.set k { ch with closed := true } } := by
  unfold closeOutChan at h
  split at h
  · simp at h
  · rename_i k hk
    split at h
    · simp at h
    · rename_i ch hch
      split at h
      · simp at h
      · rename_i hcl
        refine ⟨k, ch, hk, hch, by simpa using hcl, ?_⟩
        simp at h
        exact h.symm

theorem inv_setChan {s : State} {k : Nat} {ch : Chan} (ch1 : Chan) (h : Inv s)
    (hk : s.chans[k]? = some ch) (hcl : ch1.closed = ch.closed)
    (hlen : ch1.buf.length ≤ chanCap) :
    Inv { s with chans := s.chans.set k ch1 } := by
  refine ⟨h.fault_ok, h.fault_dead, ?_, ?_, ?_, h.one_live, h.idle_dead, h.nil_chan⟩
  · intro hr
    obtain ⟨h1, c, ch0, h2, h3, h4⟩ := h.run_open hr
    refine ⟨h1, c, if c = k then ch1 else ch0, h2, ?_, ?_⟩
    · show (s.chans.set k ch1)[c]? = _
      rw [getElem?_set_of_some ch1 c hk]
      split <;> simp [h3]
    · split
      · rename_i hck
        subst hck
        rw [hk] at h3
        cases h3
        rw [hcl, h4]
      · exact h4
  · intro hr c hc
    obtain ⟨ch0, h3, h4⟩ := h.stop_closed hr c hc
    refine ⟨if c = k then ch1 else ch0, ?_, ?_⟩
    · show (s.chans.set k ch1)[c]? = _
      rw [getElem?_set_of_some ch1 c hk]
      split <;> simp [h3]
    · split
      · rename_i hck
        subst hck
        rw [hk] at h3
        cases h3
        rw [hcl, h4]
      · exact h4
  · exact forall_mem_set k h.cap hlen

theorem inv_send {s s1 : State} {c : Option Nat} {it : Item} (h : Inv s)
    (hs : chanSend s c it = .ok (some s1)) : Inv s1 := by
  obtain ⟨k, ch, -, hk, -, hlen, rfl⟩ := chanSend_some hs
  refine inv_setChan { ch with buf := ch.buf ++ [it] } h hk rfl ?_
  simp only [List.length_append, List.length_singleton]
  omega

theorem inv_start {s : State} (h : Inv s) (hc : s.closed = none) (hr : s.running = false)
    (hf : s.fault = none) : Inv (start s) := by
  have hd := h.idle_dead hc hr
  refine ⟨h.fault_ok, ?_, ?_, ?_, ?_, ?_, ?_, ?_⟩
  · intro hf1
    exact absurd hf hf1
  · intro _
    refine ⟨hc, s.chans.length, { buf := [], closed := false }, rfl, ?_, rfl⟩
    simp [start]
  · intro hr1
    simp [start] at hr1
  · intro ch hch
    simp only [start, List.mem_append, List.mem_singleton] at hch
    rcases hch with h1 | h1
    · exact h.cap ch h1
    · subst h1
      simp [chanCap]
  · intro i j pi pj hi hj hpi hpj
    simp only [start] at hi hj
    have key : ∀ (n : Nat) (pc : DrainPc), (s.drains ++ [DrainPc.recv])[n]? = some pc →
        pc ≠ DrainPc.exited → n = s.drains.length := by
      intro n pc hn hpc
      rcases Nat.lt_trichotomy n s.drains.length with h1 | h1 | h1
      · rw [List.getElem?_append_left h1] at hn
        exact absurd (hd pc (List.getElem?_mem hn)) hpc
      · exact h1
      · rw [List.getElem?_eq_none (by simp; omega)] at hn
        simp at hn
    rw [key i pi hi hpi, key j pj hj hpj]
  · intro _ hr1
    simp [start] at hr1
  · intro ho
    simp [start] at ho

theorem inv_of_eq {s t : State} (h : Inv s) (h1 : t.chans = s.chans)
    (h2 : t.outChan = s.outChan) (h3 : t.running = s.running) (h4 : t.closed = s.closed)
    (h5 : t.drains = s.drains) (h6 : t.fault = s.fault) : Inv t := by
  obtain ⟨a1, a2, a3, a4, a5, a6, a7, a8⟩ := h
  constructor
  · rw [h6]; exact a1
  · rw [h6, h5]; exact a2
  · rw [h3, h4, h2, h1]; exact a3
  · rw [h3, h2, h1]; exact a4
  · rw [h1]; exact a5
  · rw [h5]; exact a6
  · rw [h3, h4, h5]; exact a7
  · rw [h2, h5]; exact a8

theorem chanSend_error {s : State} {c : Option Nat} {it : Item} {f : Fault}
    (h : chanSend s c it = .error f) :
    ∃ k ch, c = some k ∧ s.chans[k]? = some ch ∧ ch.closed = true := by
  unfold chanSend at h
  split at h
  · simp at h
  · rename_i k
    split at h
    · simp at h
    · rename_i ch hch
      split at h
      · rename_i hcl
        exact ⟨k, ch, rfl, hch, hcl⟩
      · split at h <;> simp at h

/-- With `running` set the send on `conn.outChan` does not panic. -/
theorem send_no_panic {s : State} (h : Inv s) (hr : s.running = true) (it : Item) (f : Fault) :
    chanSend s s.outChan it ≠ .error f := by
  intro he
  obtain ⟨k, ch, h1, h2, h3⟩ := chanSend_error he
  obtain ⟨-, c, ch0, h4, h5, h6⟩ := h.run_open hr
  rw [h4] at h1
  cases h1
  rw [h5] at h2
  cases h2
  rw [h6] at h3
  cases h3

theorem inv_wnb {s : State} (h : Inv s) (hf : s.fault = none) (data : Buf) :
    Inv (WriteNonBlocking s data).1 := by
  unfold WriteNonBlocking
  split
  · exact h
  · rename_i hc
    have h1 : Inv (if s.running = true then s else start s) := by
      split
      · exact h
      · rename_i hr
        exact inv_start h hc (by simpa using hr) hf
    have hr1 : (if s.running = true then s else start s).running = true := by
      split
      · assumption
      · rfl
    generalize (if s.running = true then s else start s) = s1 at h1 hr1
    simp only
    split
    · rename_i f he
      exact absurd he (send_no_panic h1 hr1 _ f)
    · rename_i s2 hs
      exact inv_of_eq (inv_send h1 hs) rfl rfl rfl rfl rfl rfl
    · exact h1

theorem inv_write {s : State} (h : Inv s) (hf : s.fault = none) (data : Buf) :
    Inv (Write s data) := by
  have h1 := inv_wnb h hf data
  unfold Write
  simp only
  split
  · exact inv_of_eq h1 rfl rfl rfl rfl rfl rfl
  · split
    · exact inv_of_eq h1 rfl rfl rfl rfl rfl rfl
    · exact inv_of_eq h1 rfl rfl rfl rfl rfl rfl

theorem inv_blockingSend {s : State} (h : Inv s) (i : Nat) (c : Option Nat) (data : Buf) :
    Inv (blockingSend s i c data) := by
  unfold blockingSend
  split
  · exact inv_of_eq h rfl rfl rfl rfl rfl rfl
  · rename_i s1 hs
    exact inv_of_eq (inv_send h hs) rfl rfl rfl rfl rfl rfl
  · exact inv_of_eq h rfl rfl rfl rfl rfl rfl

theorem inv_writerStep {s : State} (h : Inv s) (i : Nat) : Inv (writerStep s i) := by
  unfold writerStep
  split
  · exact inv_blockingSend h i _ _
  · exact inv_blockingSend h i _ _
  · exact h

/-- What the critical section of `Close` does to a running connection of a reachable state. -/
theorem closeLocked_running {s : State} (h : Inv s) (hr : s.running = true) :
    ∃ k ch, s.outChan = some k ∧ s.chans[k]? = some ch ∧ ch.closed = false ∧
      closeLocked s = { s with
        closed := some Err.closeRequested
        running := false
        chans := s.chans.set k
          { buf := if ch.buf.length < chanCap
              then ch.buf ++ [{ data := goodbye, origin := Origin.wake }] else ch.buf
            closed := true } } := by
  obtain ⟨hc, k, ch, hk, hch, hcl⟩ := h.run_open hr
  refine ⟨k, ch, hk, hch, hcl, ?_⟩
  have hk1 : k < s.chans.length := by
    rcases Nat.lt_or_ge k s.chans.length with h1 | h1
    · exact h1
    · simp [List.getElem?_eq_none h1] at hch
  unfold closeLocked latchCause stopQueue
  simp only [hc, hr, if_true]
  by_cases hlen : ch.buf.length < chanCap
  · simp [chanSend, closeOutChan, hk, hch, hcl, hlen, hk1]
  · simp [chanSend, closeOutChan, hk, hch, hcl, hlen]

theorem closeLocked_stopped {s : State} (hr : s.running = false) :
    closeLocked s = { s with closed := some (s.closed.getD Err.closeRequested) } := by
  obtain ⟨a1, a2, a3, a4, a5, a6, a7, a8, a9, a10, a11, a12, a13⟩ := s
  simp only at hr
  subst hr
  cases a4 <;> simp [closeLocked, latchCause]

theorem inv_closeLocked {s : State} (h : Inv s) : Inv (closeLocked s) := by
  cases hr : s.running
  · rw [closeLocked_stopped hr]
    refine ⟨h.fault_ok, h.fault_dead, ?_, h.stop_closed, h.cap, h.one_live, ?_, h.nil_chan⟩
    · intro hr1
      simp [hr] at hr1
    · intro hc
      simp at hc
  · obtain ⟨k, ch, hk, hch, hcl, he⟩ := closeLocked_running h hr
    rw [he]
    refine ⟨h.fault_ok, h.fault_dead, ?_, ?_, ?_, h.one_live, ?_, h.nil_chan⟩
    · intro hr1
      simp at hr1
    · intro _ c hc
      have hck : c = k := by
        have : s.outChan = some c := hc
        rw [hk] at this
        cases this
        rfl
      subst hck
      refine ⟨{ buf := if ch.buf.length < chanCap
          then ch.buf ++ [{ data := goodbye, origin := Origin.wake }] else ch.buf
                closed := true }, ?_, rfl⟩
      show (s.chans.set c _)[c]? = _
      rw [getElem?_set_of_some _ c hch]
      simp
    · apply forall_mem_set k h.cap
      have := h.cap ch (List.getElem?_mem hch)
      simp only
      split
      · simp only [List.length_append, List.length_singleton]
        omega
      · exact this
    · intro hc
      simp at hc

theorem all_exited_set {s : State} (h : Inv s) {i : Nat} {pc : DrainPc}
    (hi : s.drains[i]? = some pc) (hpc : pc ≠ DrainPc.exited) :
    ∀ q ∈ s.drains.set i DrainPc.exited, q = DrainPc.exited := by
  intro q hq
  obtain ⟨n, hn⟩ := List.mem_iff_getElem?.mp hq
  rw [getElem?_set_of_some _ n hi] at hn
  split at hn
  · cases hn
    rfl
  · rename_i hne
    by_contra hq1
    exact hne (h.one_live n i q pc hn hi hq1 hpc)

theorem inv_setDrain_live {s : State} (h : Inv s) (hf : s.fault = none) {i : Nat}
    {pc : DrainPc} (hi : s.drains[i]? = some pc) (hpc : pc ≠ DrainPc.exited) (q : DrainPc) :
    Inv (setDrain s i q) := by
  refine ⟨h.fault_ok, ?_, h.run_open, h.stop_closed, h.cap, ?_, ?_, ?_⟩
  · intro hf1
    exact absurd hf hf1
  · intro a b pa pb ha hb hpa hpb
    simp only [setDrain] at ha hb
    rw [getElem?_set_of_some _ a hi] at ha
    rw [getElem?_set_of_some _ b hi] at hb
    split at ha
    · split at hb
      · omega
      · rename_i h1 h2
        have := h.one_live i b pc pb hi hb hpc hpb
        omega
    · split at hb
      · rename_i h1 h2
        have := h.one_live a i pa pc ha hi hpa hpc
        omega
      · exact h.one_live a b pa pb ha hb hpa hpb
  · intro hc hr
    exact absurd (h.idle_dead hc hr pc (List.getElem?_mem hi)) hpc
  · intro ho
    have := h.nil_chan ho
    simp [this] at hi

theorem inv_exit {s t : State} (h : Inv s) {i : Nat} {pc : DrainPc}
    (hi : s.drains[i]? = some pc) (hpc : pc ≠ DrainPc.exited)
    (hd : t.drains = s.drains.set i DrainPc.exited)
    (hf : t.fault = none ∨ t.fault = some Fault.shortWrite)
    (hro : t.running = true →
      t.closed = none ∧ ∃ c ch, t.outChan = some c ∧ t.chans[c]? = some ch ∧ ch.closed = false)
    (hsc : t.running = false →
      ∀ c, t.outChan = some c → ∃ ch, t.chans[c]? = some ch ∧ ch.closed = true)
    (hcap : ∀ ch ∈ t.chans, ch.buf.length ≤ chanCap)
    (ho : t.outChan = s.outChan) : Inv t := by
  have hall := all_exited_set h hi hpc
  rw [← hd] at hall
  refine ⟨hf, fun _ => hall, hro, hsc, hcap, ?_, fun _ _ => hall, ?_⟩
  · intro a b pa pb ha hb hpa hpb
    exact absurd (hall pa (List.getElem?_mem ha)) hpa
  · intro ho1
    rw [ho] at ho1
    have := h.nil_chan ho1
    simp [this] at hi

theorem inv_chanRecv {s : State} (h : Inv s) (hf : s.fault = none) {i : Nat} {pc : DrainPc}
    (hi : s.drains[i]? = some pc) (hpc : pc ≠ DrainPc.exited) (c : Option Nat) :
    Inv (chanRecv s i c) := by
  unfold chanRecv
  split
  · exact inv_setDrain_live h hf hi hpc _
  · rename_i k
    split
    · exact inv_setDrain_live h hf hi hpc _
    · rename_i ch hch
      split
      · rename_i x rest hb
        have hlen : rest.length ≤ chanCap := by
          have := h.cap ch (List.getElem?_mem hch)
          rw [hb] at this
          simp only [List.length_cons] at this
          omega
        have h1 := inv_setChan { ch with buf := rest } h hch rfl hlen
        exact inv_setDrain_live h1 hf hi hpc _
      · split
        · exact inv_setDrain_live h hf hi hpc _
        · exact inv_setDrain_live h hf hi hpc _

/-- The failure path of `writeloop` on a connection that is still running. -/
theorem writeloop_locking_running {s : State} {i : Nat} {err : Option Err}
    (res : Nat × Option Err) (h : Inv s)
    (hi : s.drains[i]? = some (DrainPc.locking err)) (hr : s.running = true) :
    ∃ k ch, s.outChan = some k ∧ s.chans[k]? = some ch ∧ ch.closed = false ∧
      writeloop s i res = { s with
        closed := err
        running := false
        closeQueued := s.closeQueued + 1
        chans := s.chans.set k { ch with closed := true }
        drains := s.drains.set i DrainPc.exited } := by
  obtain ⟨-, k, ch, hk, hch, hcl⟩ := h.run_open hr
  refine ⟨k, ch, hk, hch, hcl, ?_⟩
  simp [writeloop, hi, hr, closeOutChan, hk, hch, hcl, setDrain]

/-- The failure path of `writeloop` on a connection that is no longer running. -/
theorem writeloop_locking_stopped {s : State} {i : Nat} {err : Option Err}
    (res : Nat × Option Err)
    (hi : s.drains[i]? = some (DrainPc.locking err)) (hr : s.running = false) :
    writeloop s i res = { s with
      closed := err
      running := false
      closeQueued := s.closeQueued + 1
      drains := s.drains.set i DrainPc.exited } := by
  simp [writeloop, hi, hr, setDrain]

theorem inv_writeloop {s : State} (h : Inv s) (hf : s.fault = none) (i : Nat)
    (res : Nat × Option Err) : Inv (writeloop s i res) := by
  by_cases hl : ∃ err, s.drains[i]? = some (DrainPc.locking err)
  · obtain ⟨err, hi⟩ := hl
    cases hr : s.running
    · rw [writeloop_locking_stopped res hi hr]
      refine inv_exit h hi (by simp) rfl (Or.inl hf) ?_ ?_ h.cap rfl
      · intro hr1
        simp at hr1
      · intro _
        exact h.stop_closed hr
    · obtain ⟨k, ch, hk, hch, hcl, he⟩ := writeloop_locking_running res h hi hr
      rw [he]
      refine inv_exit h hi (by simp) rfl (Or.inl hf) ?_ ?_ ?_ rfl
      · intro hr1
        simp at hr1
      · intro _ c hc
        have hck : c = k := by
          have : s.outChan = some c := hc
          rw [hk] at this
          cases this
          rfl
        subst hck
        refine ⟨{ ch with closed := true }, ?_, rfl⟩
        show (s.chans.set c _)[c]? = _
        rw [getElem?_set_of_some _ c hch]
        simp
      · apply forall_mem_set k h.cap
        exact h.cap ch (List.getElem?_mem hch)
  unfold writeloop
  split
  · exact h
  · rename_i hi
    exact inv_chanRecv h hf hi (by simp) _
  · rename_i c hi
    exact inv_chanRecv h hf hi (by simp) _
  · rename_i it hi
    have h1 : Inv { s with wire := s.wire ++ [(it, !s.connClosed)] } :=
      inv_of_eq h rfl rfl rfl rfl rfl rfl
    simp only
    split
    · exact inv_setDrain_live h1 hf hi (by simp) _
    · split
      · exact inv_exit h hi (by simp) rfl (Or.inr rfl) h.run_open h.stop_closed h.cap rfl
      · exact inv_setDrain_live h1 hf hi (by simp) _
  · rename_i hi
    split
    · exact inv_setDrain_live h hf hi (by simp) _
    · exact inv_setDrain_live h hf hi (by simp) _
  · rename_i err hi
    exact absurd ⟨err, hi⟩ hl
  · exact h

theorem inv_step {s : State} (h : Inv s) (a : Action) : Inv (step a s) := by
  unfold step
  split
  · exact h
  · rename_i hf
    have hf : s.fault = none := by
      cases hs : s.fault
      · rfl
      · simp [hs] at hf
    cases a with
    | read res =>
      simp only [Read]
      split
      · exact h
      · exact inv_of_eq h rfl rfl rfl rfl rfl rfl
    | readFull res =>
      simp only [ReadFull]
      split
      · exact h
      · exact inv_of_eq h rfl rfl rfl rfl rfl rfl
    | wnb data => exact inv_wnb h hf data
    | write data => exact inv_write h hf data
    | writer i => exact inv_writerStep h i
    | close => exact inv_of_eq h rfl rfl rfl rfl rfl rfl
    | closeAsync =>
      simp only
      split
      · exact h
      · exact inv_of_eq h rfl rfl rfl rfl rfl rfl
    | closeLock =>
      simp only
      split
      · exact h
      · exact inv_closeLocked (inv_of_eq h rfl rfl rfl rfl rfl rfl)
    | drain i res => exact inv_writeloop h hf i res

theorem inv_run {s : State} (h : Inv s) (sched : List Action) : Inv (run sched s) := by
  induction sched generalizing s with
  | nil => exact h
  | cons a rest ih => exact ih (inv_step h a)

theorem inv_reachable {s : State} (h : Reachable s) : Inv s := by
  obtain ⟨sched, rfl⟩ := h
  exact inv_run inv_init sched

theorem latchCause_post (s : State) :
    (latchCause s).closed ≠ none ∧ (latchCause s).running = s.running ∧
      (latchCause s).connClosed = s.connClosed := by
  unfold latchCause
  split
  · simp
  · rename_i e he
    simp [he]

theorem stopQueue_post (s : State) :
    (stopQueue s).running = false ∧ (stopQueue s).closed = s.closed ∧
      (stopQueue s).connClosed = s.connClosed := by
  unfold stopQueue
  simp only
  split
  · exact ⟨rfl, rfl, rfl⟩
  · rename_i r hs
    have h5 : (r.getD { s with running := false }).running = false ∧
        (r.getD { s with running := false }).closed = s.closed ∧
        (r.getD { s with running := false }).connClosed = s.connClosed := by
      cases r with
      | none => exact ⟨rfl, rfl, rfl⟩
      | some t =>
        obtain ⟨k, ch, -, -, -, -, rfl⟩ := chanSend_some hs
        exact ⟨rfl, rfl, rfl⟩
    generalize (r.getD { s with running := false }) = s3 at h5
    obtain ⟨h6, h7, h8⟩ := h5
    split
    · exact ⟨h6, h7, h8⟩
    · rename_i s4 hco
      obtain ⟨k, ch, -, -, -, rfl⟩ := closeOutChan_ok hco
      exact ⟨h6, h7, h8⟩

theorem closeLocked_post (s : State) :
    (closeLocked s).running = false ∧ (closeLocked s).closed ≠ none ∧
      (closeLocked s).connClosed = s.connClosed := by
  obtain ⟨h1, h2, h3⟩ := latchCause_post s
  unfold closeLocked
  simp only
  split
  · obtain ⟨h4, h5, h6⟩ := stopQueue_post (latchCause s)
    exact ⟨h4, h5 ▸ h1, h6.trans h3⟩
  · rename_i hr
    exact ⟨by simpa using hr, h1, h3⟩

theorem Close_post (s : State) :
    (Close s).running = false ∧ (Close s).closed ≠ none ∧ (Close s).connClosed = true := by
  obtain ⟨h1, h2, h3⟩ := closeLocked_post (closeTransport s)
  exact ⟨h1, h2, h3⟩

theorem Close_terminated {s : State} (hc : s.closed ≠ none) (hr : s.running = false) :
    Close s = closeTransport s := by
  unfold Close
  rw [closeLocked_stopped (by exact hr)]
  cases h : s.closed with
  | none => exact absurd h hc
  | some e =>
    obtain ⟨a1, a2, a3, a4, a5, a6, a7, a8, a9, a10, a11, a12, a13⟩ := s
    simp only at h
    subst h
    rfl

theorem Close_fixed {s : State} (hc : s.closed ≠ none) (hr : s.running = false)
    (ht : s.connClosed = true) : Close s = s := by
  rw [Close_terminated hc hr]
  obtain ⟨a1, a2, a3, a4, a5, a6, a7, a8, a9, a10, a11, a12, a13⟩ := s
  simp only at ht
  subst ht
  rfl

theorem Close_Close (s : State) : Close (Close s) = Close s := by
  obtain ⟨h1, h2, h3⟩ := Close_post s
  exact Close_fixed h2 h1 h3

/-- Claim C3: `Close` is idempotent.  For every state `s` and every `n`, running `Close`
`n + 1` times in a row leaves exactly the state one `Close` leaves (cause, `running`,
channels and their closed flags included); on a connection that is already terminated
(`closed` set, `running` false) `Close` only closes the transport again: no field of the
connection changes, nothing is sent and no channel is closed, and with the transport
already closed the state is unchanged. -/
theorem Close_idempotent (s : State) (n : Nat) :
    Close^[n + 1] s = Close s ∧
    (Close s).running = false ∧ (Close s).closed ≠ none ∧
    (s.closed ≠ none → s.running = false →
      Close s = closeTransport s ∧ (Close s).chans = s.chans ∧ (Close s).closed = s.closed ∧
      (Close s).outChan = s.outChan ∧ (s.connClosed = true → Close s = s)) := by
  refine ⟨?_, (Close_post s).1, (Close_post s).2.1, ?_⟩
  · induction n with
    | zero => rfl
    | succ k ih => rw [Function.iterate_succ_apply', ih, Close_Close]
  · intro hc hr
    rw [Close_terminated hc hr]
    exact ⟨rfl, rfl, rfl, rfl, fun ht => (Close_terminated hc hr).symm.trans (Close_fixed hc hr ht)⟩

/-- Claim C3 at a running connection with one queued buffer: three calls of `Close` leave
what one call leaves, with the cause "close requested" and the wake buffer sent once. -/
theorem Close_idempotent_witness :
    Close^[2 + 1] (WriteNonBlocking init [1]).1 = Close (WriteNonBlocking init [1]).1 ∧
    (Close (WriteNonBlocking init [1]).1).closed = some Err.closeRequested ∧
    (Close (WriteNonBlocking init [1]).1).chans =
      [{ buf := [{ data := [1], origin := Origin.producer },
                 { data := goodbye, origin := Origin.wake }], closed := true }] :=
  ⟨(Close_idempotent (WriteNonBlocking init [1]).1 2).1, by decide, by decide⟩

/-- Claim C1 fails on the code: the failure path of `writeloop` assigns `conn.closed = err`
without testing it.  After `Close` has latched "close requested", the drain task resets the
cause to nil (first schedule) or replaces it by its transport error (second schedule). -/
theorem cause_not_latched :
    (run (raceTrace.take 5) init).closed = some Err.closeRequested ∧
    (run raceTrace init).closed = none ∧
    (run (failTrace.take 3) init).closed = some Err.closeRequested ∧
    (run failTrace init).closed = some (Err.transport 5) := by
  decide

/-- Claim C2 fails on the code: in the state the first schedule leaves, `Close` has
returned, yet `Read` and `ReadFull` hand the read to the transport and return its result,
and `WriteNonBlocking` accepts the buffer and puts it on a channel. -/
theorem calls_after_Close_not_refused :
    (run (raceTrace.take 5) init).closed = some Err.closeRequested ∧
    (Read (run raceTrace init) (7, none)).2 = (7, none) ∧
    (Read (run raceTrace init) (7, none)).1.reads = 1 ∧
    (ReadFull (run raceTrace init) none).2 = none ∧
    (ReadFull (run raceTrace init) none).1.reads = 1 ∧
    (WriteNonBlocking (run raceTrace init) [2]).2 = (true, none) ∧
    (WriteNonBlocking (run raceTrace init) [2]).1.enq = [[1], [2]] ∧
    (Write (run raceTrace init) [2]).writers = [WriterPc.returned none] := by
  decide

/-- Claim C8 fails on the code: after the first schedule a later `WriteNonBlocking` runs
`start` a second time, which makes a second channel and a second drain goroutine on a
connection that had left Running. -/
theorem start_runs_twice :
    (run (raceTrace.take 1) init).chans.length = 1 ∧
    (run (raceTrace.take 1) init).drains.length = 1 ∧
    (run raceTrace init).running = false ∧
    (run (raceTrace ++ [.wnb [2]]) init).running = true ∧
    (run (raceTrace ++ [.wnb [2]]) init).chans.length = 2 ∧
    (run (raceTrace ++ [.wnb [2]]) init).drains = [DrainPc.exited, DrainPc.recv] ∧
    (run (raceTrace ++ [.wnb [2]]) init).outChan = some 1 := by
  decide

theorem sameFlags_of_eq {s t : State} (h : t.chans = s.chans) : SameFlags s t := by
  intro c ch hc
  exact ⟨ch, h ▸ hc, rfl⟩

theorem sameFlags_trans {s t u : State} (h1 : SameFlags s t) (h2 : SameFlags t u) :
    SameFlags s u := by
  intro c ch hc
  obtain ⟨ch1, h3, h4⟩ := h1 c ch hc
  obtain ⟨ch2, h5, h6⟩ := h2 c ch1 h3
  exact ⟨ch2, h5, h6.trans h4⟩

theorem sameFlags_set {s t : State} {k : Nat} {ch0 : Chan} (ch1 : Chan) (hk : s.chans[k]? = some ch0)
    (hcl : ch1.closed = ch0.closed) (ht : t.chans = s.chans.set k ch1) : SameFlags s t := by
  intro c ch hc
  rw [ht, getElem?_set_of_some ch1 c hk]
  split
  · rename_i hck
    subst hck
    rw [hk] at hc
    cases hc
    exact ⟨ch1, rfl, hcl⟩
  · exact ⟨ch, hc, rfl⟩

theorem sameFlags_start (s : State) : SameFlags s (start s) := by
  intro c ch hc
  have hlt : c < s.chans.length := by
    rcases Nat.lt_or_ge c s.chans.length with h1 | h1
    · exact h1
    · simp [List.getElem?_eq_none h1] at hc
  refine ⟨ch, ?_, rfl⟩
  show (s.chans ++ _)[c]? = _
  rw [List.getElem?_append_left hlt]
  exact hc

theorem sameFlags_send {s s1 : State} {c : Option Nat} {it : Item}
    (hs : chanSend s c it = .ok (some s1)) : SameFlags s s1 := by
  obtain ⟨k, ch, -, hk, -, -, rfl⟩ := chanSend_some hs
  exact sameFlags_set { ch with buf := ch.buf ++ [it] } hk rfl rfl

theorem sameFlags_wnb (s : State) (data : Buf) : SameFlags s (WriteNonBlocking s data).1 := by
  unfold WriteNonBlocking
  split
  · exact sameFlags_of_eq rfl
  · have h1 : SameFlags s (if s.running = true then s else start s) := by
      split
      · exact sameFlags_of_eq rfl
      · exact sameFlags_start s
    generalize (if s.running = true then s else start s) = s1 at h1
    simp only
    split
    · exact sameFlags_trans h1 (sameFlags_of_eq rfl)
    · rename_i s2 hs
      exact sameFlags_trans h1 (sameFlags_trans (sameFlags_send hs) (sameFlags_of_eq rfl))
    · exact h1

theorem sameFlags_write (s : State) (data : Buf) : SameFlags s (Write s data) := by
  have h1 := sameFlags_wnb s data
  unfold Write
  simp only
  split
  · exact sameFlags_trans h1 (sameFlags_of_eq rfl)
  · split
    · exact sameFlags_trans h1 (sameFlags_of_eq rfl)
    · exact sameFlags_trans h1 (sameFlags_of_eq rfl)

theorem sameFlags_blockingSend (s : State) (i : Nat) (c : Option Nat) (data : Buf) :
    SameFlags s (blockingSend s i c data) := by
  unfold blockingSend
  split
  · exact sameFlags_of_eq rfl
  · rename_i s1 hs
    exact sameFlags_trans (sameFlags_send hs) (sameFlags_of_eq rfl)
  · exact sameFlags_of_eq rfl

theorem sameFlags_writerStep (s : State) (i : Nat) : SameFlags s (writerStep s i) := by
  unfold writerStep
  split
  · exact sameFlags_blockingSend s i _ _
  · exact sameFlags_blockingSend s i _ _
  · exact sameFlags_of_eq rfl

theorem sameFlags_chanRecv (s : State) (i : Nat) (c : Option Nat) :
    SameFlags s (chanRecv s i c) := by
  unfold chanRecv
  split
  · exact sameFlags_of_eq rfl
  · split
    · exact sameFlags_of_eq rfl
    · rename_i ch hch
      split
      · rename_i x rest hb
        exact sameFlags_set { ch with buf := rest } hch rfl rfl
      · split
        · exact sameFlags_of_eq rfl
        · exact sameFlags_of_eq rfl

theorem closeLocked_flags {s : State} (h : Inv s) :
    SameFlags s (closeLocked s) ∨ ∃ k, ClosesChan s (closeLocked s) k := by
  rcases Bool.eq_false_or_eq_true s.running with hr | hr
  · right
    obtain ⟨k, ch, hk, hch, hcl, he⟩ := closeLocked_running h hr
    rw [he]
    exact ⟨k, ch, _, hk, hch, hcl, hr, rfl, rfl⟩
  · left
    rw [closeLocked_stopped hr]
    exact sameFlags_of_eq rfl

theorem step_flags {s : State} (h : Inv s) (a : Action) :
    SameFlags s (step a s) ∨ ∃ k, ClosesChan s (step a s) k := by
  unfold step
  split
  · exact Or.inl (sameFlags_of_eq rfl)
  · cases a with
    | read res =>
      left
      simp only [Read]
      split <;> exact sameFlags_of_eq rfl
    | readFull res =>
      left
      simp only [ReadFull]
      split <;> exact sameFlags_of_eq rfl
    | wnb data => exact Or.inl (sameFlags_wnb s data)
    | write data => exact Or.inl (sameFlags_write s data)
    | writer i => exact Or.inl (sameFlags_writerStep s i)
    | close => exact Or.inl (sameFlags_of_eq rfl)
    | closeAsync =>
      left
      simp only
      split <;> exact sameFlags_of_eq rfl
    | closeLock =>
      simp only
      split
      · exact Or.inl (sameFlags_of_eq rfl)
      · exact closeLocked_flags (s := { s with closeWaiting := s.closeWaiting - 1 })
          (inv_of_eq h rfl rfl rfl rfl rfl rfl)
    | drain i res =>
      simp only
      by_cases hl : ∃ err, s.drains[i]? = some (DrainPc.locking err)
      · obtain ⟨err, hi⟩ := hl
        rcases Bool.eq_false_or_eq_true s.running with hr | hr
        · right
          obtain ⟨k, ch, hk, hch, hcl, he⟩ := writeloop_locking_running res h hi hr
          rw [he]
          exact ⟨k, ch, _, hk, hch, hcl, hr, rfl, rfl⟩
        · left
          rw [writeloop_locking_stopped res hi hr]
          exact sameFlags_of_eq rfl
      · left
        unfold writeloop
        split
        · exact sameFlags_of_eq rfl
        · exact sameFlags_chanRecv s i _
        · exact sameFlags_chanRecv s i _
        · simp only
          split
          · exact sameFlags_of_eq rfl
          · split <;> exact sameFlags_of_eq rfl
        · split <;> exact sameFlags_of_eq rfl
        · rename_i err hi
          exact absurd ⟨err, hi⟩ hl
        · exact sameFlags_of_eq rfl

theorem closesChan_flags {s t : State} {k : Nat} (h : ClosesChan s t k) (c : Nat) (ch : Chan)
    (hc : s.chans[c]? = some ch) :
    ∃ ch1 : Chan, t.chans[c]? = some ch1 ∧ (ch1.closed = ch.closed ∨
      (ch.closed = false ∧ ch1.closed = true ∧ s.running = true ∧ s.outChan = some c ∧
        t.running = false)) := by
  obtain ⟨ch0, b, h1, h2, h3, h4, h5, h6⟩ := h
  rw [h6, getElem?_set_of_some _ c h2]
  split
  · rename_i hck
    subst hck
    rw [h2] at hc
    cases hc
    exact ⟨_, rfl, Or.inr ⟨h3, rfl, h4, h1, h5⟩⟩
  · exact ⟨ch, hc, Or.inl rfl⟩

/-- Claim C9: queue-close safety.  In every reachable state: (1) `running` implies that the
cause is unset and `conn.outChan` is a channel that exists and is open; (2) the process has
not panicked with a send on a closed channel, a close of a closed channel or a close of a
nil channel; (3) whatever step comes next, each channel keeps its closed flag, except that
the open `conn.outChan` of a running connection may be closed by a step that also clears
`running` (so no channel is closed twice, and none is closed unless the connection was
running); (4) the channel `WriteNonBlocking` sends on after its check and possible `start`
exists and is open.  The wake send of `Close` is guarded by `running`, so (1) covers it. -/
theorem queue_close_safety (s : State) (h : Reachable s) :
    (s.running = true → s.closed = none ∧
      ∃ c ch, s.outChan = some c ∧ s.chans[c]? = some ch ∧ ch.closed = false) ∧
    (s.fault ≠ some Fault.sendOnClosed ∧ s.fault ≠ some Fault.closeOfClosed ∧
      s.fault ≠ some Fault.closeOfNil) ∧
    (∀ (a : Action) (c : Nat) (ch : Chan), s.chans[c]? = some ch →
      ∃ ch1 : Chan, (step a s).chans[c]? = some ch1 ∧ (ch1.closed = ch.closed ∨
        (ch.closed = false ∧ ch1.closed = true ∧ s.running = true ∧ s.outChan = some c ∧
          (step a s).running = false))) ∧
    (s.closed = none → ∃ c ch, (if s.running then s else start s).outChan = some c ∧
      (if s.running then s else start s).chans[c]? = some ch ∧ ch.closed = false) := by
  have hi := inv_reachable h
  refine ⟨hi.run_open, ?_, ?_, ?_⟩
  · rcases hi.fault_ok with h1 | h1 <;> simp [h1]
  · intro a c ch hc
    rcases step_flags hi a with h1 | ⟨k, h1⟩
    · obtain ⟨ch1, h2, h3⟩ := h1 c ch hc
      exact ⟨ch1, h2, Or.inl h3⟩
    · exact closesChan_flags h1 c ch hc
  · intro hc
    split
    · rename_i hr
      exact (hi.run_open hr).2
    · exact ⟨s.chans.length, { buf := [], closed := false }, rfl, by simp [start], rfl⟩

/-- Claim C9 at the state after one accepted write. -/
theorem queue_close_safety_witness :
    (run [Action.wnb [1]] init).running = true ∧
    (run [Action.wnb [1]] init).closed = none ∧
    (run [Action.wnb [1]] init).fault ≠ some Fault.closeOfClosed :=
  ⟨by decide,
   ((queue_close_safety (run [Action.wnb [1]] init) ⟨[Action.wnb [1]], rfl⟩).1 (by decide)).1,
   (queue_close_safety (run [Action.wnb [1]] init) ⟨[Action.wnb [1]], rfl⟩).2.1.2.1⟩

theorem wnb_full {s : State} {c : Nat} {ch : Chan} (h : Inv s) (hr : s.running = true)
    (hc : s.outChan = some c) (hch : s.chans[c]? = some ch) (hlen : ch.buf.length = chanCap)
    (b : Buf) : WriteNonBlocking s b = (s, (false, none)) := by
  obtain ⟨h1, c1, ch1, h2, h3, h4⟩ := h.run_open hr
  rw [hc] at h2
  cases h2
  rw [hch] at h3
  cases h3
  simp [WriteNonBlocking, h1, hr, chanSend, hc, hch, h4, hlen]

/-- Claim C5: backpressure.  In every reachable state every channel holds at most 4
buffers, and `WriteNonBlocking` on a connection that is not terminated and whose queue
holds 4 buffers returns `(false, nil)` and leaves the whole state as it was; this is
stated twice, for a running connection, and for a connection with the cause unset whose
`conn.outChan` is open (in reachable states the two are the same).  On a fresh connection
five calls of `WriteNonBlocking` in a row, with no drain step in between, return true four
times and then `(false, nil)`. -/
theorem backpressure (s : State) (h : Reachable s) :
    (∀ ch ∈ s.chans, ch.buf.length ≤ 4) ∧
    (∀ (c : Nat) (ch : Chan) (b : Buf), s.running = true → s.outChan = some c →
      s.chans[c]? = some ch → ch.buf.length = 4 →
      WriteNonBlocking s b = (s, (false, none))) ∧
    (∀ (c : Nat) (ch : Chan) (b : Buf), s.closed = none → s.outChan = some c →
      s.chans[c]? = some ch → ch.closed = false → ch.buf.length = 4 →
      WriteNonBlocking s b = (s, (false, none))) ∧
    (∀ b1 b2 b3 b4 b5 : Buf,
      (WriteNonBlocking init b1).2 = (true, none) ∧
      (WriteNonBlocking (WriteNonBlocking init b1).1 b2).2 = (true, none) ∧
      (WriteNonBlocking (WriteNonBlocking (WriteNonBlocking init b1).1 b2).1 b3).2
        = (true, none) ∧
      (WriteNonBlocking (WriteNonBlocking (WriteNonBlocking
        (WriteNonBlocking init b1).1 b2).1 b3).1 b4).2 = (true, none) ∧
      WriteNonBlocking (WriteNonBlocking (WriteNonBlocking (WriteNonBlocking
        (WriteNonBlocking init b1).1 b2).1 b3).1 b4).1 b5 =
        ((WriteNonBlocking (WriteNonBlocking (WriteNonBlocking
          (WriteNonBlocking init b1).1 b2).1 b3).1 b4).1, (false, none))) := by
  have hi := inv_reachable h
  refine ⟨hi.cap, ?_, ?_, ?_⟩
  · intro c ch b hr hc hch hlen
    exact wnb_full hi hr hc hch hlen b
  · intro c ch b _ hc hch hcl hlen
    have hr : s.running = true := by
      rcases Bool.eq_false_or_eq_true s.running with hr | hr
      · exact hr
      · obtain ⟨ch1, h1, h2⟩ := hi.stop_closed hr c hc
        rw [hch] at h1
        cases h1
        rw [hcl] at h2
        cases h2
    exact wnb_full hi hr hc hch hlen b
  · intro b1 b2 b3 b4 b5
    simp [WriteNonBlocking, init, start, chanSend, chanCap]

/-- Claim C5 at the state four accepted writes leave: the queue is full and a fifth
`WriteNonBlocking` is turned away without an error and without a change of state. -/
theorem backpressure_witness :
    WriteNonBlocking (run [.wnb [1], .wnb [2], .wnb [3], .wnb [4]] init) [5] =
      (run [.wnb [1], .wnb [2], .wnb [3], .wnb [4]] init, (false, none)) :=
  (backpressure (run [.wnb [1], .wnb [2], .wnb [3], .wnb [4]] init)
    ⟨[.wnb [1], .wnb [2], .wnb [3], .wnb [4]], rfl⟩).2.1 0
    { buf := [⟨[1], .producer⟩, ⟨[2], .producer⟩, ⟨[3], .producer⟩, ⟨[4], .producer⟩],
      closed := false } [5] (by decide) (by decide) (by decide) (by decide)

theorem blockingSend_frame (s : State) (i : Nat) (c : Option Nat) (data : Buf) :
    (blockingSend s i c data).closed = s.closed ∧
    (blockingSend s i c data).running = s.running ∧
    (blockingSend s i c data).drains = s.drains ∧
    (blockingSend s i c data).outChan = s.outChan ∧
    (blockingSend s i c data).connClosed = s.connClosed ∧
    (blockingSend s i c data).fault = s.fault ∧
    (blockingSend s i c data).wire = s.wire ∧
    (blockingSend s i c data).closeWaiting = s.closeWaiting := by
  unfold blockingSend
  split
  · exact ⟨rfl, rfl, rfl, rfl, rfl, rfl, rfl, rfl⟩
  · rename_i s1 hs
    obtain ⟨k, ch, -, -, -, -, rfl⟩ := chanSend_some hs
    exact ⟨rfl, rfl, rfl, rfl, rfl, rfl, rfl, rfl⟩
  · exact ⟨rfl, rfl, rfl, rfl, rfl, rfl, rfl, rfl⟩

theorem writerStep_frame (s : State) (i : Nat) :
    (writerStep s i).closed = s.closed ∧
    (writerStep s i).running = s.running ∧
    (writerStep s i).drains = s.drains ∧
    (writerStep s i).outChan = s.outChan ∧
    (writerStep s i).connClosed = s.connClosed ∧
    (writerStep s i).fault = s.fault ∧
    (writerStep s i).wire = s.wire ∧
    (writerStep s i).closeWaiting = s.closeWaiting := by
  unfold writerStep
  split
  · exact blockingSend_frame s i _ _
  · exact blockingSend_frame s i _ _
  · exact ⟨rfl, rfl, rfl, rfl, rfl, rfl, rfl, rfl⟩

theorem wnb_refused {s : State} {e : Err} (h : s.closed = some e) (b : Buf) :
    WriteNonBlocking s b = (s, (false, some e)) := by
  simp [WriteNonBlocking, h]

theorem writeloop_exited {s : State} (h : ∀ pc ∈ s.drains, pc = DrainPc.exited) (i : Nat)
    (res : Nat × Option Err) : writeloop s i res = s := by
  cases hi : s.drains[i]? with
  | none => simp [writeloop, hi]
  | some pc =>
    have := h pc (List.getElem?_mem hi)
    subst this
    simp [writeloop, hi]

theorem halted_step {s : State} {e : Err} (h : Halted s e) (a : Action) :
    Halted (step a s) e := by
  obtain ⟨h1, h2, h3⟩ := h
  unfold step
  split
  · exact ⟨h1, h2, h3⟩
  · cases a with
    | read res => simp only [Read, h1]; exact ⟨h1, h2, h3⟩
    | readFull res => simp only [ReadFull, h1]; exact ⟨h1, h2, h3⟩
    | wnb data => simp only [wnb_refused h1]; exact ⟨h1, h2, h3⟩
    | write data => simp only [Write, wnb_refused h1]; exact ⟨h1, h2, h3⟩
    | writer i =>
      obtain ⟨f1, f2, f3, -⟩ := writerStep_frame s i
      exact ⟨f1.trans h1, f2.trans h2, f3 ▸ h3⟩
    | close => exact ⟨h1, h2, h3⟩
    | closeAsync =>
      simp only
      split <;> exact ⟨h1, h2, h3⟩
    | closeLock =>
      simp only
      split
      · exact ⟨h1, h2, h3⟩
      · rw [closeLocked_stopped (by exact h2)]
        refine ⟨?_, h2, h3⟩
        show some ((s.closed).getD Err.closeRequested) = some e
        rw [h1]
        rfl
    | drain i res =>
      simp only [writeloop_exited h3]
      exact ⟨h1, h2, h3⟩

theorem halted_run {s : State} {e : Err} (h : Halted s e) (sched : List Action) :
    Halted (run sched s) e := by
  induction sched generalizing s with
  | nil => exact h
  | cons a rest ih => exact ih (halted_step h a)

theorem closeLocked_drains {s : State} (h : Inv s) : (closeLocked s).drains = s.drains := by
  rcases Bool.eq_false_or_eq_true s.running with hr | hr
  · obtain ⟨k, ch, -, -, -, he⟩ := closeLocked_running h hr
    rw [he]
  · rw [closeLocked_stopped hr]

theorem wnb_drains {s : State} {i : Nat} {pc : DrainPc} (hi : s.drains[i]? = some pc)
    (data : Buf) : (WriteNonBlocking s data).1.drains[i]? = some pc := by
  have hlt : i < s.drains.length := by
    rcases Nat.lt_or_ge i s.drains.length with h1 | h1
    · exact h1
    · simp [List.getElem?_eq_none h1] at hi
  unfold WriteNonBlocking
  split
  · exact hi
  · have h1 : (if s.running = true then s else start s).drains[i]? = some pc := by
      split
      · exact hi
      · show (s.drains ++ _)[i]? = _
        rw [List.getElem?_append_left hlt]
        exact hi
    generalize (if s.running = true then s else start s) = s1 at h1
    simp only
    split
    · exact h1
    · rename_i s2 hs
      obtain ⟨k, ch, -, -, -, -, rfl⟩ := chanSend_some hs
      exact h1
    · exact h1

theorem chanRecv_drains (s : State) (j : Nat) (c : Option Nat) :
    ∃ q, (chanRecv s j c).drains = s.drains.set j q := by
  unfold chanRecv
  split
  · exact ⟨_, rfl⟩
  · split
    · exact ⟨_, rfl⟩
    · split
      · exact ⟨_, rfl⟩
      · split <;> exact ⟨_, rfl⟩

theorem writeloop_drains (s : State) (j : Nat) (res : Nat × Option Err) :
    (writeloop s j res).drains = s.drains ∨ ∃ q, (writeloop s j res).drains = s.drains.set j q := by
  unfold writeloop
  split
  · exact Or.inl rfl
  · exact Or.inr (chanRecv_drains s j _)
  · exact Or.inr (chanRecv_drains s j _)
  · simp only
    split
    · exact Or.inr ⟨_, rfl⟩
    · split <;> exact Or.inr ⟨_, rfl⟩
  · split <;> exact Or.inr ⟨_, rfl⟩
  · simp only
    split
    · exact Or.inl rfl
    · rename_i s2 hs
      right
      split at hs
      · obtain ⟨k, ch, -, -, -, rfl⟩ := closeOutChan_ok hs
        exact ⟨_, rfl⟩
      · cases hs
        exact ⟨_, rfl⟩
  · exact Or.inl rfl

/-- Steps of other goroutines leave the program point of drain goroutine `i` alone. -/
theorem step_drains_other {s : State} (h : Inv s) {a : Action} {i : Nat}
    (ha : ∀ r, a ≠ Action.drain i r) {pc : DrainPc} (hi : s.drains[i]? = some pc) :
    (step a s).drains[i]? = some pc := by
  unfold step
  split
  · exact hi
  · cases a with
    | read res => simp only [Read]; split <;> exact hi
    | readFull res => simp only [ReadFull]; split <;> exact hi
    | wnb data => exact wnb_drains hi data
    | write data =>
      have := wnb_drains hi data
      unfold Write
      simp only
      split
      · exact this
      · split <;> exact this
    | writer j =>
      obtain ⟨-, -, f3, -⟩ := writerStep_frame s j
      simp only [f3]
      exact hi
    | close => exact hi
    | closeAsync =>
      simp only
      split <;> exact hi
    | closeLock =>
      simp only
      split
      · exact hi
      · rw [closeLocked_drains (s := { s with closeWaiting := s.closeWaiting - 1 })
          (inv_of_eq h rfl rfl rfl rfl rfl rfl)]
        exact hi
    | drain j res =>
      have hji : j ≠ i := by
        intro hji
        subst hji
        exact ha res rfl
      simp only
      rcases writeloop_drains s j res with h1 | ⟨q, h1⟩
      · rw [h1]
        exact hi
      · rw [h1, List.getElem?_set_ne hji]
        exact hi

theorem run_drains_other {s : State} (h : Inv s) {sched : List Action} {i : Nat}
    (ha : ∀ a ∈ sched, ∀ r, a ≠ Action.drain i r) {pc : DrainPc}
    (hi : s.drains[i]? = some pc) : (run sched s).drains[i]? = some pc := by
  induction sched generalizing s with
  | nil => exact hi
  | cons a rest ih =>
    rw [run_cons]
    refine ih (inv_step h a) ?_ ?_
    · intro b hb
      exact ha b (List.mem_cons_of_mem a hb)
    · exact step_drains_other h (ha a (List.mem_cons_self a rest)) hi

theorem not_drain_of_drainOf {a : Action} {i : Nat} (h : a.drainOf i = false) :
    ∀ r, a ≠ Action.drain i r := by
  intro r hr
  subst hr
  simp [Action.drainOf] at h

theorem fault_none_of_live {s : State} (h : Inv s) {i : Nat} {pc : DrainPc}
    (hi : s.drains[i]? = some pc) (hpc : pc ≠ DrainPc.exited) : s.fault = none := by
  by_contra hf
  exact hpc (h.fault_dead hf pc (List.getElem?_mem hi))

theorem step_drain_eq {s : State} (hf : s.fault = none) (i : Nat) (res : Nat × Option Err) :
    step (Action.drain i res) s = writeloop s i res := by
  simp [step, hf]

theorem writeloop_write_error {s : State} {i : Nat} {it : Item}
    (hi : s.drains[i]? = some (DrainPc.write it)) (n : Nat) (e : Err) :
    (writeloop s i (n, some e)).drains[i]? = some (DrainPc.locking (some e)) ∧
    (writeloop s i (n, some e)).wire = s.wire ++ [(it, !s.connClosed)] := by
  have hlt : i < s.drains.length := by
    rcases Nat.lt_or_ge i s.drains.length with h1 | h1
    · exact h1
    · simp [List.getElem?_eq_none h1] at hi
  simp [writeloop, hi, setDrain, hlt]

theorem halted_after_failure {s : State} (h : Inv s) {i : Nat} {e : Err}
    (hi : s.drains[i]? = some (DrainPc.locking (some e))) (res : Nat × Option Err) :
    Halted (writeloop s i res) e ∧
    ∃ c ch, (writeloop s i res).outChan = some c ∧ (writeloop s i res).chans[c]? = some ch ∧
      ch.closed = true := by
  have hall := all_exited_set h hi (by simp)
  rcases Bool.eq_false_or_eq_true s.running with hr | hr
  · obtain ⟨k, ch, hk, hch, hcl, he⟩ := writeloop_locking_running res h hi hr
    rw [he]
    refine ⟨⟨rfl, rfl, hall⟩, k, { ch with closed := true }, hk, ?_, rfl⟩
    show (s.chans.set k _)[k]? = _
    rw [getElem?_set_of_some _ k hch]
    simp
  · rw [writeloop_locking_stopped res hi hr]
    refine ⟨⟨rfl, rfl, hall⟩, ?_⟩
    cases ho : s.outChan with
    | none =>
      have := h.nil_chan ho
      simp [this] at hi
    | some c =>
      obtain ⟨ch, h1, h2⟩ := h.stop_closed hr c ho
      exact ⟨c, ch, rfl, h1, h2⟩

/-- Claim C6 (scenario C).  Take any reachable state in which drain goroutine `i` holds a
dequeued buffer `it` and is about to write it (the connection running or not).  Let the
transport write fail with a non-nil error `E`, let any steps of other goroutines follow
(`sched1`, which may hold whole `Close` calls), and let the drain goroutine then run its
failure path.  Then the buffer was passed to the transport, the connection is terminated
with the cause exactly `E`: `closed = E`, `running = false`, `conn.outChan` closed; and
after any further steps whatever (`sched2`, which may hold the `Close` the failure path
dispatched) `WriteNonBlocking` returns `(false, E)` and changes nothing. -/
theorem write_error_terminates (sched0 sched1 : List Action) (i n : Nat) (it : Item)
    (E : Err) (res : Nat × Option Err)
    (h0 : (run sched0 init).drains[i]? = some (DrainPc.write it))
    (h1 : ∀ a ∈ sched1, a.drainOf i = false) :
    (step (.drain i (n, some E)) (run sched0 init)).wire =
      (run sched0 init).wire ++ [(it, !(run sched0 init).connClosed)] ∧
    (run sched1 (step (.drain i (n, some E)) (run sched0 init))).drains[i]? =
      some (DrainPc.locking (some E)) ∧
    (step (.drain i res) (run sched1 (step (.drain i (n, some E)) (run sched0 init)))).closed
      = some E ∧
    (step (.drain i res) (run sched1 (step (.drain i (n, some E)) (run sched0 init)))).running
      = false ∧
    (∃ c ch,
      (step (.drain i res) (run sched1 (step (.drain i (n, some E))
        (run sched0 init)))).outChan = some c ∧
      (step (.drain i res) (run sched1 (step (.drain i (n, some E))
        (run sched0 init)))).chans[c]? = some ch ∧ ch.closed = true) ∧
    ∀ (sched2 : List Action) (b : Buf),
      WriteNonBlocking (run sched2 (step (.drain i res)
          (run sched1 (step (.drain i (n, some E)) (run sched0 init))))) b =
        (run sched2 (step (.drain i res)
          (run sched1 (step (.drain i (n, some E)) (run sched0 init)))), (false, some E)) := by
  have hi0 : Inv (run sched0 init) := inv_run inv_init sched0
  have hf0 := fault_none_of_live hi0 h0 (by simp)
  generalize run sched0 init = s0 at *
  rw [step_drain_eq hf0]
  obtain ⟨hw1, hw2⟩ := writeloop_write_error h0 n E
  have hi1 : Inv (writeloop s0 i (n, some E)) := inv_writeloop hi0 hf0 i _
  have hl := run_drains_other hi1 (fun a ha => not_drain_of_drainOf (h1 a ha)) hw1
  have hi2 := inv_run hi1 sched1
  generalize run sched1 (writeloop s0 i (n, some E)) = s1 at *
  have hf1 := fault_none_of_live hi2 hl (by simp)
  rw [step_drain_eq hf1]
  obtain ⟨hh, hc⟩ := halted_after_failure hi2 hl res
  refine ⟨hw2, hl, hh.1, hh.2.1, hc, ?_⟩
  intro sched2 b
  exact wnb_refused (halted_run hh sched2).1 b

/-- Claim C6 on a concrete run: a buffer is accepted and taken by the drain task, its write
fails with error 7, a whole `Close` call runs before the drain task gets the lock, and the
cause is error 7 all the same, also after the dispatched `Close`. -/
theorem write_error_terminates_witness :
    (step (.drain 0 (0, none)) (run [.close, .closeLock]
      (step (.drain 0 (0, some (Err.transport 7)))
        (run [.wnb [1], .drain 0 (0, none)] init)))).closed = some (Err.transport 7) ∧
    WriteNonBlocking (run [.closeAsync, .closeLock] (step (.drain 0 (0, none))
      (run [.close, .closeLock] (step (.drain 0 (0, some (Err.transport 7)))
        (run [.wnb [1], .drain 0 (0, none)] init))))) [2] =
      (run [.closeAsync, .closeLock] (step (.drain 0 (0, none))
        (run [.close, .closeLock] (step (.drain 0 (0, some (Err.transport 7)))
          (run [.wnb [1], .drain 0 (0, none)] init)))), (false, some (Err.transport 7))) :=
  ⟨(write_error_terminates [.wnb [1], .drain 0 (0, none)] [.close, .closeLock] 0 0
      { data := [1], origin := .producer } (Err.transport 7) (0, none)
      (by decide) (by decide)).2.2.1,
   (write_error_terminates [.wnb [1], .drain 0 (0, none)] [.close, .closeLock] 0 0
      { data := [1], origin := .producer } (Err.transport 7) (0, none)
      (by decide) (by decide)).2.2.2.2.2 [.closeAsync, .closeLock] [2]⟩

/-- Claim C7 as stated fails: in scenario B the blocked `Write` call returns the nil error,
not the latched cause "close requested". -/
theorem scenarioB_nil_error :
    (run (blockedTrace.take 6) init).writers = [WriterPc.parked (some 0) [5]] ∧
    (run blockedTrace init).closed = some Err.closeRequested ∧
    (run blockedTrace init).writers = [WriterPc.returned none] ∧
    ¬ ((run blockedTrace init).writers[0]? =
        some (WriterPc.returned (run blockedTrace init).closed)) := by
  decide

theorem lt_of_getElem?_some {α : Type} {l : List α} {k : Nat} {x : α} (h : l[k]? = some x) :
    k < l.length := by
  rcases Nat.lt_or_ge k l.length with h1 | h1
  · exact h1
  · simp [List.getElem?_eq_none h1] at h

/-- A `Write` call whose blocking send is on a closed channel returns the nil error. -/
theorem writerStep_closed {s : State} {i c : Nat} {b : Buf} {ch : Chan}
    (hw : s.writers[i]? = some (WriterPc.parked (some c) b) ∨
      (s.writers[i]? = some (WriterPc.sending b) ∧ s.outChan = some c))
    (hch : s.chans[c]? = some ch) (hcl : ch.closed = true) :
    writerStep s i = setWriter s i (WriterPc.returned none) := by
  rcases hw with hw | ⟨hw, ho⟩
  · simp [writerStep, hw, blockingSend, chanSend, hch, hcl]
  · simp [writerStep, hw, ho, blockingSend, chanSend, hch, hcl]

theorem step_eq_of_fault {s : State} (hf : s.fault = none) (a : Action) :
    step a s = match a with
      | .read res => (Read s res).1
      | .readFull res => (ReadFull s res).1
      | .wnb data => (WriteNonBlocking s data).1
      | .write data => Write s data
      | .writer i => writerStep s i
      | .close => { closeTransport s with closeWaiting := s.closeWaiting + 1 }
      | .closeAsync =>
        if s.closeQueued = 0 then s
        else { closeTransport s with
               closeQueued := s.closeQueued - 1, closeWaiting := s.closeWaiting + 1 }
      | .closeLock =>
        if s.closeWaiting = 0 then s
        else closeLocked { s with closeWaiting := s.closeWaiting - 1 }
      | .drain i res => writeloop s i res := by
  unfold step
  split
  · rename_i h
    simp [hf] at h
  · rfl

/-- A whole `Close` call as two steps of the system is the method `Close`. -/
theorem step_close_closeLock {s : State} (hf : s.fault = none) :
    step .closeLock (step .close s) = Close s := by
  rw [step_eq_of_fault hf, step_eq_of_fault (by exact hf)]
  simp [Close, closeTransport]

theorem wnb_writers (s : State) (data : Buf) :
    (WriteNonBlocking s data).1.writers = s.writers := by
  unfold WriteNonBlocking
  split
  · rfl
  · have h1 : (if s.running = true then s else start s).writers = s.writers := by
      split <;> rfl
    generalize (if s.running = true then s else start s) = s1 at h1
    simp only
    split
    · exact h1
    · rename_i s2 hs
      obtain ⟨k, ch, -, -, -, -, rfl⟩ := chanSend_some hs
      exact h1
    · exact h1

theorem closeLocked_writers {s : State} (h : Inv s) : (closeLocked s).writers = s.writers := by
  rcases Bool.eq_false_or_eq_true s.running with hr | hr
  · obtain ⟨k, ch, -, -, -, he⟩ := closeLocked_running h hr
    rw [he]
  · rw [closeLocked_stopped hr]

theorem chanRecv_writers (s : State) (j : Nat) (c : Option Nat) :
    (chanRecv s j c).writers = s.writers := by
  unfold chanRecv
  split
  · rfl
  · split
    · rfl
    · split
      · rfl
      · split <;> rfl

theorem writeloop_writers (s : State) (j : Nat) (res : Nat × Option Err) :
    (writeloop s j res).writers = s.writers := by
  unfold writeloop
  split
  · rfl
  · exact chanRecv_writers s j _
  · exact chanRecv_writers s j _
  · simp only
    split
    · rfl
    · split <;> rfl
  · split <;> rfl
  · simp only
    split
    · rfl
    · rename_i s2 hs
      split at hs
      · obtain ⟨k, ch, -, -, -, rfl⟩ := closeOutChan_ok hs
        rfl
      · cases hs
        rfl
  · rfl

theorem blockingSend_writers (s : State) (j : Nat) (c : Option Nat) (data : Buf) :
    ∃ pc, (blockingSend s j c data).writers = s.writers.set j pc := by
  unfold blockingSend
  split
  · exact ⟨_, rfl⟩
  · rename_i s1 hs
    obtain ⟨k, ch, -, -, -, -, rfl⟩ := chanSend_some hs
    exact ⟨_, rfl⟩
  · exact ⟨_, rfl⟩

theorem writerStep_writers (s : State) (j : Nat) :
    (writerStep s j).writers = s.writers ∨ ∃ pc, (writerStep s j).writers = s.writers.set j pc := by
  unfold writerStep
  split
  · exact Or.inr (blockingSend_writers s j _ _)
  · exact Or.inr (blockingSend_writers s j _ _)
  · exact Or.inl rfl

theorem closed_step {s : State} (h : Inv s) (a : Action) {c : Nat}
    (hc : ∃ ch : Chan, s.chans[c]? = some ch ∧ ch.closed = true) :
    ∃ ch : Chan, (step a s).chans[c]? = some ch ∧ ch.closed = true := by
  obtain ⟨ch, h1, h2⟩ := hc
  rcases step_flags h a with h3 | ⟨k, h3⟩
  · obtain ⟨ch1, h4, h5⟩ := h3 c ch h1
    exact ⟨ch1, h4, h5.trans h2⟩
  · obtain ⟨ch1, h4, h5⟩ := closesChan_flags h3 c ch h1
    refine ⟨ch1, h4, ?_⟩
    rcases h5 with h6 | h6
    · exact h6.trans h2
    · exact h6.2.1

theorem writerStep_returned {s : State} {i : Nat} {e : Option Err}
    (hw : s.writers[i]? = some (WriterPc.returned e)) : writerStep s i = s := by
  simp [writerStep, hw]

theorem wokenWriter_step {s : State} (h : Inv s) (a : Action) {i c : Nat} {b : Buf}
    (hw : WokenWriter s i c b) : WokenWriter (step a s) i c b := by
  refine ⟨closed_step h a hw.1, ?_⟩
  obtain ⟨⟨ch, hch, hcl⟩, hw2⟩ := hw
  have hlt : i < s.writers.length := by
    rcases hw2 with h1 | h1 <;> exact lt_of_getElem?_some h1
  unfold step
  split
  · exact hw2
  · cases a with
    | read res => simp only [Read]; split <;> exact hw2
    | readFull res => simp only [ReadFull]; split <;> exact hw2
    | wnb data => simp only [wnb_writers]; exact hw2
    | write data =>
      have h1 := wnb_writers s data
      have key : ∀ pc : WriterPc, ((WriteNonBlocking s data).1.writers ++ [pc])[i]? =
          s.writers[i]? := by
        intro pc
        rw [h1, List.getElem?_append_left hlt]
      unfold Write
      simp only
      split
      · simp only [key]; exact hw2
      · split
        · simp only [key]; exact hw2
        · simp only [key]; exact hw2
    | writer j =>
      simp only
      by_cases hji : j = i
      · subst hji
        rcases hw2 with h1 | h1
        · rw [writerStep_closed (Or.inl h1) hch hcl]
          right
          simp [setWriter, hlt]
        · rw [writerStep_returned h1]
          exact Or.inr h1
      · rcases writerStep_writers s j with h1 | ⟨pc, h1⟩
        · rw [h1]; exact hw2
        · rw [h1, List.getElem?_set_ne hji]; exact hw2
    | close => exact hw2
    | closeAsync =>
      simp only
      split <;> exact hw2
    | closeLock =>
      simp only
      split
      · exact hw2
      · rw [closeLocked_writers (s := { s with closeWaiting := s.closeWaiting - 1 })
          (inv_of_eq h rfl rfl rfl rfl rfl rfl)]
        exact hw2
    | drain j res =>
      simp only [writeloop_writers]
      exact hw2

theorem wokenWriter_run {s : State} (h : Inv s) (sched : List Action) {i c : Nat} {b : Buf}
    (hw : WokenWriter s i c b) : WokenWriter (run sched s) i c b := by
  induction sched generalizing s with
  | nil => exact hw
  | cons a rest ih => exact ih (inv_step h a) (wokenWriter_step h a hw)

theorem inv_Close {s : State} (h : Inv s) : Inv (Close s) :=
  inv_closeLocked (s := closeTransport s) (inv_of_eq h rfl rfl rfl rfl rfl rfl)

theorem step_writer_eq {s : State} (hf : s.fault = none) (i : Nat) :
    step (Action.writer i) s = writerStep s i := by
  rw [step_eq_of_fault hf]

theorem run_dead {s : State} (h : s.fault ≠ none) (sched : List Action) :
    run sched s = s := by
  have hs : ∀ a, step a s = s := by
    intro a
    unfold step
    rw [if_pos]
    cases hf : s.fault with
    | none => exact absurd hf h
    | some f => rfl
  induction sched with
  | nil => rfl
  | cons a rest ih => rw [run_cons, hs a, ih]

/-- Claim C7 as amended (scenario B).  In a reachable state let `Write` call `i` be parked
in its blocking send on channel `c`, the queue of the running connection.  A caller runs
`Close` (the two steps `close` and `closeLock`, which together are the method `Close`): the
cause becomes "close requested" and channel `c` is closed.  Whatever steps follow
(`sched`), as long as the process is alive, the next step of the `Write` call makes it
return, with the nil error (the panic of the send on the closed channel is recovered): no
fault is raised, nothing is put on any channel, and the cause is not touched. -/
theorem blocked_write_returns_nil (s : State) (h : Reachable s) (i c : Nat) (b : Buf)
    (sched : List Action)
    (hr : s.running = true) (ho : s.outChan = some c)
    (hw : s.writers[i]? = some (WriterPc.parked (some c) b))
    (hf : (run sched (step .closeLock (step .close s))).fault = none) :
    step .closeLock (step .close s) = Close s ∧
    (Close s).closed = some Err.closeRequested ∧ (Close s).running = false ∧
    (∃ ch : Chan, (Close s).chans[c]? = some ch ∧ ch.closed = true) ∧
    (step (.writer i) (run sched (Close s))).writers[i]? = some (WriterPc.returned none) ∧
    (step (.writer i) (run sched (Close s))).fault = none ∧
    (step (.writer i) (run sched (Close s))).chans = (run sched (Close s)).chans ∧
    (step (.writer i) (run sched (Close s))).enq = (run sched (Close s)).enq ∧
    (step (.writer i) (run sched (Close s))).closed = (run sched (Close s)).closed := by
  have hs : s.fault = none := by
    by_contra hne
    have h1 : step .closeLock (step .close s) = s := run_dead hne [.close, .closeLock]
    rw [h1, run_dead hne sched] at hf
    exact hne hf
  have hcl := step_close_closeLock hs
  rw [hcl] at hf
  refine ⟨hcl, ?_⟩
  have hi := inv_reachable h
  have hi1 : Inv (closeTransport s) := inv_of_eq hi rfl rfl rfl rfl rfl rfl
  obtain ⟨k, ch, hk, hch, hcl, he⟩ := closeLocked_running hi1 (by exact hr)
  have hkc : k = c := by
    have : s.outChan = some k := hk
    rw [ho] at this
    cases this
    rfl
  subst hkc
  have hch1 : s.chans[k]? = some ch := hch
  have hw0 : WokenWriter (Close s) i k b := by
    unfold Close
    rw [he]
    refine ⟨⟨{ buf := if ch.buf.length < chanCap
        then ch.buf ++ [{ data := goodbye, origin := Origin.wake }] else ch.buf
               closed := true }, ?_, rfl⟩, Or.inl hw⟩
    show (s.chans.set k _)[k]? = _
    rw [getElem?_set_of_some _ k hch1]
    simp
  have hw1 := wokenWriter_run (inv_Close hi) sched hw0
  have hc0 : (Close s).closed = some Err.closeRequested := by
    unfold Close
    rw [he]
  refine ⟨hc0, (Close_post s).1, hw0.1, ?_⟩
  generalize run sched (Close s) = t at hf hw1
  rw [step_writer_eq hf]
  obtain ⟨⟨ch1, h1, h2⟩, h3⟩ := hw1
  have hlt : i < t.writers.length := by
    rcases h3 with h4 | h4 <;> exact lt_of_getElem?_some h4
  rcases h3 with h4 | h4
  · rw [writerStep_closed (Or.inl h4) h1 h2]
    exact ⟨by simp [setWriter, hlt], hf, rfl, rfl, rfl⟩
  · rw [writerStep_returned h4]
    exact ⟨h4, hf, rfl, rfl, rfl⟩

/-- Claim C7 as amended, on scenario B itself: four accepted writes, a `Write` call parked
on the full queue, a `Close`, the drain task taking one buffer, and the `Write` call
returning the nil error. -/
theorem blocked_write_returns_nil_witness :
    (step (.writer 0) (run [.drain 0 (0, none)] (Close (run (blockedTrace.take 6) init)))).writers[0]?
      = some (WriterPc.returned none) :=
  (blocked_write_returns_nil (run (blockedTrace.take 6) init) ⟨blockedTrace.take 6, rfl⟩
    0 0 [5] [.drain 0 (0, none)] (by decide) (by decide) (by decide) (by decide)).2.2.2.2.1

theorem fifoRunning_of_eq {s t : State} (h : FifoRunning s) (h1 : t.chans = s.chans)
    (h2 : t.outChan = s.outChan) (h3 : t.running = s.running) (h4 : t.closed = s.closed)
    (h5 : t.drains = s.drains) (h6 : t.closeQueued = s.closeQueued)
    (h7 : t.closeWaiting = s.closeWaiting) (h8 : t.wire = s.wire) (h9 : t.enq = s.enq) :
    FifoRunning t := by
  unfold FifoRunning wireData at *
  rw [h1, h2, h3, h4, h5, h6, h7, h8, h9]
  exact h

theorem fifoIdle_of_eq {s t : State} (h : FifoIdle s) (h1 : t.chans = s.chans)
    (h2 : t.outChan = s.outChan) (h3 : t.running = s.running) (h4 : t.closed = s.closed)
    (h5 : t.drains = s.drains) (h6 : t.closeQueued = s.closeQueued)
    (h7 : t.closeWaiting = s.closeWaiting) (h8 : t.wire = s.wire) (h9 : t.enq = s.enq) :
    FifoIdle t := by
  unfold FifoIdle at *
  rw [h1, h2, h3, h4, h5, h6, h7, h8, h9]
  exact h

theorem fifoRunning_start {s : State} (h : FifoIdle s) : FifoRunning (start s) := by
  obtain ⟨h1, h2, h3, h4, h5, h6, h7, h8, h9⟩ := h
  refine ⟨h1, rfl, h3, h4, ?_, { buf := [], closed := false }, DrainPc.recv, ?_, rfl, ?_,
    by simp, ?_⟩
  · simp [start, h6]
  · simp [start, h6]
  · simp [start, h7]
  · simp [start, wireData, inflight, h8, h9]

/-- A producer buffer sent on the channel of a running connection goes to the end. -/
theorem fifoRunning_send {s s1 : State} {c : Option Nat} {b : Buf} (h : FifoRunning s)
    (hs : chanSend s c { data := b, origin := Origin.producer } = .ok (some s1)) :
    FifoRunning { s1 with enq := s1.enq ++ [b] } := by
  obtain ⟨k, ch0, -, hk, -, -, rfl⟩ := chanSend_some hs
  obtain ⟨h1, h2, h3, h4, h5, ch, pc, h6, h7, h8, h9, h10⟩ := h
  rw [h6] at hk
  have hk0 : k = 0 := by
    cases k with
    | zero => rfl
    | succ n => simp at hk
  subst hk0
  simp at hk
  subst hk
  refine ⟨h1, h2, h3, h4, h5,
    { ch with buf := ch.buf ++ [{ data := b, origin := Origin.producer }] }, pc, ?_, h7, h8,
    h9, ?_⟩
  · simp [h6]
  · show s.enq ++ [b] = _
    rw [h10]
    simp [wireData]

theorem fifoRunning_wnb {s : State} (h : FifoIdle s ∨ FifoRunning s) (b : Buf) :
    FifoRunning (WriteNonBlocking s b).1 := by
  have hc : s.closed = none := by
    rcases h with h | h <;> exact h.1
  have h1 : FifoRunning (if s.running = true then s else start s) := by
    rcases h with h | h
    · rw [if_neg (by simp [h.2.1])]
      exact fifoRunning_start h
    · rw [if_pos h.2.1]
      exact h
  unfold WriteNonBlocking
  simp only [hc]
  generalize (if s.running = true then s else start s) = s1 at h1
  split
  · rename_i f he
    obtain ⟨k, ch0, hk1, hk2, hk3⟩ := chanSend_error he
    obtain ⟨-, -, -, -, h5, ch, pc, h6, h7, -⟩ := h1
    rw [h5] at hk1
    cases hk1
    rw [h6] at hk2
    simp at hk2
    subst hk2
    rw [h7] at hk3
    cases hk3
  · rename_i s2 hs
    exact fifoRunning_send h1 hs
  · exact h1

theorem fifo_write {s : State} (h : FifoIdle s ∨ FifoRunning s) (b : Buf) :
    FifoRunning (Write s b) := by
  have h1 := fifoRunning_wnb h b
  unfold Write
  simp only
  split
  · exact fifoRunning_of_eq h1 rfl rfl rfl rfl rfl rfl rfl rfl rfl
  · split
    · exact fifoRunning_of_eq h1 rfl rfl rfl rfl rfl rfl rfl rfl rfl
    · exact fifoRunning_of_eq h1 rfl rfl rfl rfl rfl rfl rfl rfl rfl

theorem fifoRunning_blockingSend {s : State} (h : FifoRunning s) (i : Nat) (c : Option Nat)
    (b : Buf) : FifoRunning (blockingSend s i c b) := by
  unfold blockingSend
  split
  · exact fifoRunning_of_eq h rfl rfl rfl rfl rfl rfl rfl rfl rfl
  · rename_i s1 hs
    exact fifoRunning_of_eq (fifoRunning_send h hs) rfl rfl rfl rfl rfl rfl rfl rfl rfl
  · exact fifoRunning_of_eq h rfl rfl rfl rfl rfl rfl rfl rfl rfl

theorem fifoIdle_blockingSend {s : State} (h : FifoIdle s) (i : Nat) (c : Option Nat)
    (b : Buf) : FifoIdle (blockingSend s i c b) := by
  unfold blockingSend
  split
  · exact fifoIdle_of_eq h rfl rfl rfl rfl rfl rfl rfl rfl rfl
  · rename_i s1 hs
    obtain ⟨k, ch0, -, hk, -⟩ := chanSend_some hs
    rw [h.2.2.2.2.2.1] at hk
    simp at hk
  · exact fifoIdle_of_eq h rfl rfl rfl rfl rfl rfl rfl rfl rfl

theorem fifo_writerStep {s : State} (h : FifoIdle s ∨ FifoRunning s) (i : Nat) :
    FifoIdle (writerStep s i) ∨ FifoRunning (writerStep s i) := by
  unfold writerStep
  rcases h with h | h
  · left
    split
    · exact fifoIdle_blockingSend h i _ _
    · exact fifoIdle_blockingSend h i _ _
    · exact h
  · right
    split
    · exact fifoRunning_blockingSend h i _ _
    · exact fifoRunning_blockingSend h i _ _
    · exact h

theorem fifoRunning_chanRecv {s : State} (h : FifoRunning s)
    (hpc : s.drains = [DrainPc.recv] ∨ ∃ c, s.drains = [DrainPc.parked c]) (c : Option Nat) :
    FifoRunning (chanRecv s 0 c) := by
  obtain ⟨h1, h2, h3, h4, h5, ch, pc, h6, h7, h8, h9, h10⟩ := h
  have hin : inflight pc = [] := by
    rcases hpc with hp | ⟨c1, hp⟩ <;> rw [h8] at hp <;> cases hp <;> rfl
  rw [hin] at h10
  have park : ∀ q : Option Nat, FifoRunning (setDrain s 0 (DrainPc.parked q)) := by
    intro q
    refine ⟨h1, h2, h3, h4, h5, ch, DrainPc.parked q, h6, h7, ?_, by simp, ?_⟩
    · simp [setDrain, h8]
    · simpa [wireData, inflight] using h10
  unfold chanRecv
  split
  · exact park _
  · rename_i k
    split
    · exact park _
    · rename_i ch0 hch
      rw [h6] at hch
      have hk0 : k = 0 := by
        cases k with
        | zero => rfl
        | succ n => simp at hch
      subst hk0
      simp at hch
      subst hch
      split
      · rename_i x rest hb
        refine ⟨h1, h2, h3, h4, h5, { ch with buf := rest }, DrainPc.write x, ?_, h7, ?_,
          by simp, ?_⟩
        · simp [setDrain, h6]
        · simp [setDrain, h8]
        · show s.enq = _
          rw [h10, hb]
          simp [wireData, inflight, setDrain]
      · rw [if_neg (by simp [h7])]
        exact park _

theorem prefix_of_eq_append {l a b c : List Buf} (h : l = a ++ b ++ c) : a <+: l :=
  ⟨b ++ c, by rw [h, List.append_assoc]⟩

theorem writeloop_write {s : State} {i : Nat} {it : Item}
    (hi : s.drains[i]? = some (DrainPc.write it)) (res : Nat × Option Err) :
    writeloop s i res =
      match res.2 with
      | some e =>
        setDrain { s with wire := s.wire ++ [(it, !s.connClosed)] } i (DrainPc.locking (some e))
      | none =>
        if res.1 ≠ it.data.length then
          setDrain { s with
                     wire := s.wire ++ [(it, !s.connClosed)]
                     fault := some Fault.shortWrite } i DrainPc.exited
        else setDrain { s with wire := s.wire ++ [(it, !s.connClosed)] } i DrainPc.check := by
  unfold writeloop
  simp only [hi]

theorem fifoRunning_writeloop {s : State} (h : FifoRunning s) (i : Nat)
    (res : Nat × Option Err) :
    FifoRunning (writeloop s i res) ∨ FifoDone (writeloop s i res) := by
  have h0 := h
  obtain ⟨h1, h2, h3, h4, h5, ch, pc, h6, h7, h8, h9, h10⟩ := h
  cases i with
  | succ n =>
    left
    simp [writeloop, h8]
    exact h0
  | zero =>
    cases pc with
    | recv =>
      left
      have : writeloop s 0 res = chanRecv s 0 s.outChan := by simp [writeloop, h8]
      rw [this]
      exact fifoRunning_chanRecv h0 (Or.inl h8) _
    | parked c =>
      left
      have : writeloop s 0 res = chanRecv s 0 c := by simp [writeloop, h8]
      rw [this]
      exact fifoRunning_chanRecv h0 (Or.inr ⟨c, h8⟩) _
    | write it =>
      left
      have hw : ∀ q : DrainPc, q ≠ DrainPc.locking none → inflight q = [] →
          FifoRunning (setDrain { s with wire := s.wire ++ [(it, !s.connClosed)] } 0 q) := by
        intro q hq1 hq2
        refine ⟨h1, h2, h3, h4, h5, ch, q, h6, h7, ?_, hq1, ?_⟩
        · simp [setDrain, h8]
        · show s.enq = _
          rw [h10, hq2]
          simp [wireData, inflight, setDrain]
      have hw2 : FifoRunning (setDrain
          { s with
            wire := s.wire ++ [(it, !s.connClosed)]
            fault := some Fault.shortWrite } 0 DrainPc.exited) :=
        fifoRunning_of_eq (hw DrainPc.exited (by simp) rfl) rfl rfl rfl rfl rfl rfl rfl rfl rfl
      have hd : s.drains[0]? = some (DrainPc.write it) := by simp [h8]
      rw [writeloop_write hd]
      split
      · rename_i e he
        exact hw (DrainPc.locking (some e)) (by simp) rfl
      · split
        · exact hw2
        · exact hw DrainPc.check (by simp) rfl
    | check =>
      left
      have : writeloop s 0 res = setDrain s 0 DrainPc.recv := by simp [writeloop, h8, h2]
      rw [this]
      refine ⟨h1, h2, h3, h4, h5, ch, DrainPc.recv, h6, h7, ?_, by simp, ?_⟩
      · simp [setDrain, h8]
      · simpa [wireData, inflight, setDrain] using h10
    | locking err =>
      right
      cases err with
      | none => exact absurd rfl h9
      | some e =>
        have hch : s.chans[0]? = some ch := by simp [h6]
        have : writeloop s 0 res = { s with
            closed := some e
            running := false
            closeQueued := s.closeQueued + 1
            chans := s.chans.set 0 { ch with closed := true }
            drains := s.drains.set 0 DrainPc.exited } := by
          simp [writeloop, h8, h2, closeOutChan, h5, hch, h7, setDrain]
        rw [this]
        refine ⟨by simp, rfl, ?_, ?_⟩
        · simp [h8]
        · exact prefix_of_eq_append h10
    | exited =>
      left
      simp [writeloop, h8]
      exact h0

theorem blockingSend_enq (s : State) (i : Nat) (c : Option Nat) (b : Buf) :
    ∃ t, (blockingSend s i c b).enq = s.enq ++ t := by
  unfold blockingSend
  split
  · exact ⟨[], by simp [setWriter]⟩
  · rename_i s1 hs
    obtain ⟨k, ch, -, -, -, -, rfl⟩ := chanSend_some hs
    exact ⟨[b], rfl⟩
  · exact ⟨[], by simp [setWriter]⟩

theorem writerStep_enq (s : State) (i : Nat) : ∃ t, (writerStep s i).enq = s.enq ++ t := by
  unfold writerStep
  split
  · exact blockingSend_enq s i _ _
  · exact blockingSend_enq s i _ _
  · exact ⟨[], by simp⟩

theorem fifoDone_step {s : State} (h : FifoDone s) (a : Action) : FifoDone (step a s) := by
  obtain ⟨h1, h2, h3, h4⟩ := h
  obtain ⟨e, he⟩ : ∃ e, s.closed = some e := by
    cases hc : s.closed with
    | none => exact absurd hc h1
    | some e => exact ⟨e, rfl⟩
  unfold step
  split
  · exact ⟨h1, h2, h3, h4⟩
  · cases a with
    | read res => simp only [Read, he]; exact ⟨h1, h2, h3, h4⟩
    | readFull res => simp only [ReadFull, he]; exact ⟨h1, h2, h3, h4⟩
    | wnb data => simp only [wnb_refused he]; exact ⟨h1, h2, h3, h4⟩
    | write data => simp only [Write, wnb_refused he]; exact ⟨h1, h2, h3, h4⟩
    | writer i =>
      obtain ⟨f1, f2, f3, -, -, -, f7, -⟩ := writerStep_frame s i
      obtain ⟨t, ht⟩ := writerStep_enq s i
      refine ⟨f1 ▸ h1, f2.trans h2, f3 ▸ h3, ?_⟩
      obtain ⟨u, hu⟩ := h4
      refine ⟨u ++ t, ?_⟩
      show wireData (writerStep s i) ++ (u ++ t) = (writerStep s i).enq
      rw [ht, ← hu, List.append_assoc]
      simp [wireData, f7]
    | close => exact ⟨h1, h2, h3, h4⟩
    | closeAsync =>
      simp only
      split <;> exact ⟨h1, h2, h3, h4⟩
    | closeLock =>
      simp only
      split
      · exact ⟨h1, h2, h3, h4⟩
      · rw [closeLocked_stopped (by exact h2)]
        exact ⟨by simp, h2, h3, h4⟩
    | drain i res =>
      simp only [writeloop_exited h3]
      exact ⟨h1, h2, h3, h4⟩

theorem fifo_step {s : State} (h : Fifo s) (a : Action) (ha : a.callsClose = false) :
    Fifo (step a s) := by
  rcases h with h | h | h
  · -- no write yet
    unfold step
    split
    · exact Or.inl h
    · cases a with
      | read res =>
        have : (Read s res).1 = { s with reads := s.reads + 1 } := by simp [Read, h.1]
        show Fifo (Read s res).1
        rw [this]
        exact Or.inl (fifoIdle_of_eq h rfl rfl rfl rfl rfl rfl rfl rfl rfl)
      | readFull res =>
        have : (ReadFull s res).1 = { s with reads := s.reads + 1 } := by
          simp [ReadFull, h.1]
        show Fifo (ReadFull s res).1
        rw [this]
        exact Or.inl (fifoIdle_of_eq h rfl rfl rfl rfl rfl rfl rfl rfl rfl)
      | wnb data => exact Or.inr (Or.inl (fifoRunning_wnb (Or.inl h) data))
      | write data => exact Or.inr (Or.inl (fifo_write (Or.inl h) data))
      | writer i =>
        rcases fifo_writerStep (Or.inl h) i with h1 | h1
        · exact Or.inl h1
        · exact Or.inr (Or.inl h1)
      | close => simp [Action.callsClose] at ha
      | closeAsync =>
        simp only [h.2.2.1, if_true]
        exact Or.inl h
      | closeLock =>
        simp only [h.2.2.2.1, if_true]
        exact Or.inl h
      | drain i res =>
        have : writeloop s i res = s := by simp [writeloop, h.2.2.2.2.2.2.1]
        simp only [this]
        exact Or.inl h
  · -- running
    unfold step
    split
    · exact Or.inr (Or.inl h)
    · cases a with
      | read res =>
        have : (Read s res).1 = { s with reads := s.reads + 1 } := by simp [Read, h.1]
        show Fifo (Read s res).1
        rw [this]
        exact Or.inr (Or.inl (fifoRunning_of_eq h rfl rfl rfl rfl rfl rfl rfl rfl rfl))
      | readFull res =>
        have : (ReadFull s res).1 = { s with reads := s.reads + 1 } := by
          simp [ReadFull, h.1]
        show Fifo (ReadFull s res).1
        rw [this]
        exact Or.inr (Or.inl (fifoRunning_of_eq h rfl rfl rfl rfl rfl rfl rfl rfl rfl))
      | wnb data => exact Or.inr (Or.inl (fifoRunning_wnb (Or.inr h) data))
      | write data => exact Or.inr (Or.inl (fifo_write (Or.inr h) data))
      | writer i =>
        rcases fifo_writerStep (Or.inr h) i with h1 | h1
        · exact Or.inl h1
        · exact Or.inr (Or.inl h1)
      | close => simp [Action.callsClose] at ha
      | closeAsync =>
        simp only [h.2.2.1, if_true]
        exact Or.inr (Or.inl h)
      | closeLock =>
        simp only [h.2.2.2.1, if_true]
        exact Or.inr (Or.inl h)
      | drain i res =>
        rcases fifoRunning_writeloop h i res with h1 | h1
        · exact Or.inr (Or.inl h1)
        · exact Or.inr (Or.inr h1)
  · exact Or.inr (Or.inr (fifoDone_step h a))

theorem fifo_run {s : State} (h : Fifo s) (sched : List Action)
    (hs : ∀ a ∈ sched, a.callsClose = false) : Fifo (run sched s) := by
  induction sched generalizing s with
  | nil => exact h
  | cons a rest ih =>
    rw [run_cons]
    refine ih (fifo_step h a (hs a (List.mem_cons_self a rest))) ?_
    intro b hb
    exact hs b (List.mem_cons_of_mem a hb)

theorem fifo_init : Fifo init :=
  Or.inl ⟨rfl, rfl, rfl, rfl, rfl, rfl, rfl, rfl, rfl⟩

/-- Claim C4: FIFO delivery.  In every run of a fresh connection in which no caller calls
`Close` (calls of `WriteNonBlocking` and `Write`, reads, steps of the drain task with any
transport results, and the `Close` the drain task itself dispatches after a failed write),
the buffers passed to `conn.conn.Write`, in order, are an initial segment of the producer
buffers whose send on the channel succeeded, in the order of those sends. -/
theorem fifo_delivery (sched : List Action) (h : ∀ a ∈ sched, a.callsClose = false) :
    wireData (run sched init) <+: (run sched init).enq := by
  rcases fifo_run fifo_init sched h with h1 | h1 | h1
  · unfold wireData
    rw [h1.2.2.2.2.2.2.2.1]
    exact ⟨_, rfl⟩
  · obtain ⟨-, -, -, -, -, ch, pc, -, -, -, -, h2⟩ := h1
    exact prefix_of_eq_append h2
  · exact h1.2.2.2

/-- Claim C4 on a run with three accepted writes of which the drain task has written two. -/
theorem fifo_delivery_witness :
    wireData (run [.wnb [1], .wnb [2], .drain 0 (0, none), .write [3], .drain 0 (1, none),
        .drain 0 (0, none), .drain 0 (0, none), .drain 0 (1, none)] init) = [[1], [2]] ∧
    (run [.wnb [1], .wnb [2], .drain 0 (0, none), .write [3], .drain 0 (1, none),
        .drain 0 (0, none), .drain 0 (0, none), .drain 0 (1, none)] init).enq
      = [[1], [2], [3]] ∧
    wireData (run [.wnb [1], .wnb [2], .drain 0 (0, none), .write [3], .drain 0 (1, none),
        .drain 0 (0, none), .drain 0 (0, none), .drain 0 (1, none)] init) <+:
      (run [.wnb [1], .wnb [2], .drain 0 (0, none), .write [3], .drain 0 (1, none),
        .drain 0 (0, none), .drain 0 (0, none), .drain 0 (1, none)] init).enq :=
  ⟨by decide, by decide,
   fifo_delivery [.wnb [1], .wnb [2], .drain 0 (0, none), .write [3], .drain 0 (1, none),
        .drain 0 (0, none), .drain 0 (0, none), .drain 0 (1, none)] (by decide)⟩

theorem openInv_of_eq {s t : State} (h : OpenInv s) (h1 : t.chans = s.chans)
    (h2 : t.closeWaiting = s.closeWaiting) (h3 : t.drains = s.drains)
    (h4 : t.running = s.running) (h5 : t.closed = s.closed) : OpenInv t := by
  obtain ⟨a1, a2, a3, a4, a5⟩ := h
  constructor
  · rw [h2]; exact a1
  · rw [h1]; exact a2
  · rw [h3]; exact a3
  · rw [h4, h3]; exact a4
  · rw [h5, h1]; exact a5

theorem wireInv_of_eq {s t : State} (h : WireInv s) (h1 : t.chans = s.chans)
    (h2 : t.closeWaiting = s.closeWaiting) (h3 : t.drains = s.drains)
    (h4 : t.running = s.running) (h5 : t.closed = s.closed) (h6 : t.wire = s.wire)
    (h7 : t.connClosed = s.connClosed) : WireInv t := by
  obtain ⟨a1, a2, a3⟩ := h
  constructor
  · rw [h6]; exact a1
  · rw [h1]; exact a2
  · rw [h7]
    intro hc
    exact openInv_of_eq (a3 hc) h1 h2 h3 h4 h5

/-- Once the transport is closed only the log and the channels matter. -/
theorem wireInv_of_closed {s t : State} (h : WireInv s) (h1 : t.chans = s.chans)
    (h6 : t.wire = s.wire) (h7 : t.connClosed = true) : WireInv t := by
  obtain ⟨a1, a2, a3⟩ := h
  constructor
  · rw [h6]; exact a1
  · rw [h1]; exact a2
  · rw [h7]
    intro hc
    cases hc

theorem wireInv_init : WireInv init := by
  refine ⟨by simp [init], by simp [init], fun _ => ⟨rfl, ?_, ?_, ?_, ?_⟩⟩ <;> simp [init]

theorem mem_dropLast_of_tail {α : Type} {x a : α} {l : List α} (h : x ∈ l.dropLast) :
    x ∈ (a :: l).dropLast := by
  cases l with
  | nil => simp at h
  | cons b m =>
    rw [List.dropLast_cons₂]
    exact List.mem_cons_of_mem a h

theorem wireInv_start {s : State} (h : WireInv s) (hc : s.closed = none) :
    WireInv (start s) := by
  obtain ⟨a1, a2, a3⟩ := h
  refine ⟨a1, ?_, ?_⟩
  · intro ch hch
    simp only [start, List.mem_append, List.mem_singleton] at hch
    rcases hch with h1 | h1
    · exact a2 ch h1
    · subst h1
      simp
  · intro ho
    obtain ⟨b1, b2, b3, b4, b5⟩ := a3 ho
    refine ⟨b1, ?_, ?_, ?_, ?_⟩
    · intro ch hch
      simp only [start, List.mem_append, List.mem_singleton] at hch
      rcases hch with h1 | h1
      · exact b2 ch h1
      · subst h1
        simp
    · intro pc hpc
      simp only [start, List.mem_append, List.mem_singleton] at hpc
      rcases hpc with h1 | h1
      · exact b3 pc h1
      · subst h1
        simp
    · intro hr
      simp [start] at hr
    · intro _ ch hch
      simp only [start, List.mem_append, List.mem_singleton] at hch
      rcases hch with h1 | h1
      · exact b5 hc ch h1
      · subst h1
        rfl

theorem wireInv_send {s s1 : State} {c : Option Nat} {b : Buf} (h : WireInv s)
    (hs : chanSend s c { data := b, origin := Origin.producer } = .ok (some s1)) :
    WireInv s1 := by
  obtain ⟨k, ch, -, hk, hcl, -, rfl⟩ := chanSend_some hs
  obtain ⟨a1, a2, a3⟩ := h
  have hmem := List.getElem?_mem hk
  have hall : ∀ x ∈ ch.buf ++ [{ data := b, origin := Origin.producer }],
      x.origin = Origin.producer := by
    intro x hx
    simp only [List.mem_append, List.mem_singleton] at hx
    rcases hx with h1 | h1
    · exact (a2 ch hmem).1 hcl x h1
    · subst h1
      rfl
  refine ⟨a1, ?_, ?_⟩
  · apply forall_mem_set k a2
    refine ⟨fun _ => hall, ?_⟩
    intro x hx
    exact hall x (List.mem_of_mem_dropLast hx)
  · intro ho
    obtain ⟨b1, b2, b3, b4, b5⟩ := a3 ho
    refine ⟨b1, ?_, b3, b4, ?_⟩
    · exact forall_mem_set k b2 hall
    · intro hc
      exact forall_mem_set k (b5 hc) hcl

theorem wireInv_wnb {s : State} (h : WireInv s) (data : Buf) :
    WireInv (WriteNonBlocking s data).1 := by
  unfold WriteNonBlocking
  split
  · exact h
  · rename_i hc
    have h1 : WireInv (if s.running = true then s else start s) := by
      split
      · exact h
      · exact wireInv_start h hc
    generalize (if s.running = true then s else start s) = s1 at h1
    simp only
    split
    · exact wireInv_of_eq h1 rfl rfl rfl rfl rfl rfl rfl
    · rename_i s2 hs
      exact wireInv_of_eq (wireInv_send h1 hs) rfl rfl rfl rfl rfl rfl rfl
    · exact h1

theorem wireInv_write {s : State} (h : WireInv s) (data : Buf) : WireInv (Write s data) := by
  have h1 := wireInv_wnb h data
  unfold Write
  simp only
  split
  · exact wireInv_of_eq h1 rfl rfl rfl rfl rfl rfl rfl
  · split
    · exact wireInv_of_eq h1 rfl rfl rfl rfl rfl rfl rfl
    · exact wireInv_of_eq h1 rfl rfl rfl rfl rfl rfl rfl

theorem wireInv_blockingSend {s : State} (h : WireInv s) (i : Nat) (c : Option Nat)
    (data : Buf) : WireInv (blockingSend s i c data) := by
  unfold blockingSend
  split
  · exact wireInv_of_eq h rfl rfl rfl rfl rfl rfl rfl
  · rename_i s1 hs
    exact wireInv_of_eq (wireInv_send h hs) rfl rfl rfl rfl rfl rfl rfl
  · exact wireInv_of_eq h rfl rfl rfl rfl rfl rfl rfl

theorem wireInv_writerStep {s : State} (h : WireInv s) (i : Nat) :
    WireInv (writerStep s i) := by
  unfold writerStep
  split
  · exact wireInv_blockingSend h i _ _
  · exact wireInv_blockingSend h i _ _
  · exact h

/-- The critical section of `Close` runs with the transport already closed. -/
theorem wireInv_closeLocked {s : State} (hi : Inv s) (h : WireInv s)
    (hc : s.connClosed = true) : WireInv (closeLocked s) := by
  rcases Bool.eq_false_or_eq_true s.running with hr | hr
  · obtain ⟨k, ch, hk, hch, hcl, he⟩ := closeLocked_running hi hr
    rw [he]
    refine ⟨h.wire_ok, ?_, ?_⟩
    · apply forall_mem_set k h.wake_last
      have hp := (h.wake_last ch (List.getElem?_mem hch)).1 hcl
      refine ⟨fun hx => (by cases hx), ?_⟩
      simp only
      split
      · intro x hx
        rw [List.dropLast_concat] at hx
        exact hp x hx
      · intro x hx
        exact hp x (List.mem_of_mem_dropLast hx)
    · intro ho
      rw [hc] at ho
      cases ho
  · rw [closeLocked_stopped hr]
    exact wireInv_of_closed h rfl rfl hc

theorem running_of_live {s : State} (h : OpenInv s) {i : Nat} {pc : DrainPc}
    (hi : s.drains[i]? = some pc) (hpc : pc ≠ DrainPc.exited) : s.running = true := by
  rcases Bool.eq_false_or_eq_true s.running with hr | hr
  · exact hr
  · exact absurd (h.stopped hr pc (List.getElem?_mem hi)) hpc

theorem wireInv_setDrain {s : State} (h : WireInv s) {i : Nat} {pc : DrainPc}
    (hi : s.drains[i]? = some pc) (hpc : pc ≠ DrainPc.exited) (q : DrainPc)
    (hq : s.connClosed = false →
      q ≠ DrainPc.locking none ∧ ∀ it, q = DrainPc.write it → it.origin = Origin.producer) :
    WireInv (setDrain s i q) := by
  refine ⟨h.wire_ok, h.wake_last, ?_⟩
  intro ho
  have a := h.open_ok ho
  have hr := running_of_live a hi hpc
  refine ⟨a.noWaiting, a.items, forall_mem_set i a.pcs (hq ho), ?_, a.allOpen⟩
  intro hr1
  have : s.running = false := hr1
  rw [hr] at this
  cases this

theorem wireInv_chanRecv {s : State} (hv : Inv s) (h : WireInv s) {i : Nat} {pc : DrainPc}
    (hi : s.drains[i]? = some pc) (hpc : pc ≠ DrainPc.exited) (c : Option Nat) :
    WireInv (chanRecv s i c) := by
  unfold chanRecv
  split
  · exact wireInv_setDrain h hi hpc _ (fun _ => by simp)
  · rename_i k
    split
    · exact wireInv_setDrain h hi hpc _ (fun _ => by simp)
    · rename_i ch hch
      have hmem := List.getElem?_mem hch
      split
      · rename_i x rest hb
        have h1 : WireInv { s with chans := s.chans.set k { ch with buf := rest } } := by
          refine ⟨h.wire_ok, ?_, ?_⟩
          · apply forall_mem_set k h.wake_last
            obtain ⟨p1, p2⟩ := h.wake_last ch hmem
            rw [hb] at p1 p2
            refine ⟨?_, ?_⟩
            · intro hcl y hy
              exact p1 hcl y (List.mem_cons_of_mem x hy)
            · intro y hy
              exact p2 y (mem_dropLast_of_tail hy)
          · intro ho
            have a := h.open_ok ho
            refine ⟨a.noWaiting, ?_, a.pcs, a.stopped, ?_⟩
            · apply forall_mem_set k a.items
              intro y hy
              exact a.items ch hmem y (by rw [hb]; exact List.mem_cons_of_mem x hy)
            · intro hc
              exact forall_mem_set k (a.allOpen hc) (a.allOpen hc ch hmem)
        refine wireInv_setDrain h1 hi hpc _ (fun ho => ⟨by simp, ?_⟩)
        intro it hit
        have hx : it = x := by
          cases hit
          rfl
        rw [hx]
        exact (h.open_ok ho).items ch hmem x (by rw [hb]; exact List.mem_cons_self x rest)
      · split
        · rename_i hcl
          refine wireInv_setDrain h hi hpc _ (fun ho => ?_)
          have a := h.open_ok ho
          have hr := running_of_live a hi hpc
          have := a.allOpen (hv.run_open hr).1 ch hmem
          rw [hcl] at this
          cases this
        · exact wireInv_setDrain h hi hpc _ (fun _ => by simp)

theorem wireInv_writeloop {s : State} (hv : Inv s) (h : WireInv s) (i : Nat)
    (res : Nat × Option Err) : WireInv (writeloop s i res) := by
  cases hi : s.drains[i]? with
  | none => simpa [writeloop, hi] using h
  | some pc =>
    cases pc with
    | recv =>
      have : writeloop s i res = chanRecv s i s.outChan := by simp [writeloop, hi]
      rw [this]
      exact wireInv_chanRecv hv h hi (by simp) _
    | parked c =>
      have : writeloop s i res = chanRecv s i c := by simp [writeloop, hi]
      rw [this]
      exact wireInv_chanRecv hv h hi (by simp) _
    | write it =>
      have h1 : WireInv { s with wire := s.wire ++ [(it, !s.connClosed)] } := by
        refine ⟨?_, h.wake_last, ?_⟩
        · intro e he
          simp only [List.mem_append, List.mem_singleton] at he
          rcases he with h2 | h2
          · exact h.wire_ok e h2
          · subst h2
            intro ho
            have ho1 : s.connClosed = false := by simpa using ho
            exact ((h.open_ok ho1).pcs _ (List.getElem?_mem hi)).2 it rfl
        · intro ho
          exact openInv_of_eq (h.open_ok ho) rfl rfl rfl rfl rfl
      rw [writeloop_write hi]
      split
      · exact wireInv_setDrain h1 hi (by simp) _ (fun _ => by simp)
      · split
        · exact wireInv_of_eq (wireInv_setDrain h1 hi (by simp) DrainPc.exited
            (fun _ => by simp)) rfl rfl rfl rfl rfl rfl rfl
        · exact wireInv_setDrain h1 hi (by simp) _ (fun _ => by simp)
    | check =>
      rcases Bool.eq_false_or_eq_true s.running with hr | hr
      · have : writeloop s i res = setDrain s i DrainPc.recv := by simp [writeloop, hi, hr]
        rw [this]
        exact wireInv_setDrain h hi (by simp) _ (fun _ => by simp)
      · have : writeloop s i res = setDrain s i (DrainPc.locking none) := by
          simp [writeloop, hi, hr]
        rw [this]
        refine wireInv_setDrain h hi (by simp) _ (fun ho => ?_)
        have := running_of_live (h.open_ok ho) hi (by simp)
        rw [hr] at this
        cases this
    | locking err =>
      have hall := all_exited_set hv hi (by simp)
      have herr : s.connClosed = false → err ≠ none := by
        intro ho he
        subst he
        exact ((h.open_ok ho).pcs _ (List.getElem?_mem hi)).1 rfl
      have hpcs : ∀ pc ∈ s.drains.set i DrainPc.exited, pc ≠ DrainPc.locking none ∧
          ∀ it, pc = DrainPc.write it → it.origin = Origin.producer := by
        intro pc hpc
        rw [hall pc hpc]
        simp
      rcases Bool.eq_false_or_eq_true s.running with hr | hr
      · obtain ⟨k, ch, hk, hch, hcl, he⟩ := writeloop_locking_running res hv hi hr
        have hmem := List.getElem?_mem hch
        rw [he]
        refine ⟨h.wire_ok, ?_, ?_⟩
        · apply forall_mem_set k h.wake_last
          exact ⟨fun hx => (by cases hx), (h.wake_last ch hmem).2⟩
        · intro ho
          have a := h.open_ok ho
          refine ⟨a.noWaiting, ?_, hpcs, fun _ => hall, ?_⟩
          · exact forall_mem_set k a.items (a.items ch hmem)
          · intro hc
            exact absurd hc (herr ho)
      · rw [writeloop_locking_stopped res hi hr]
        refine ⟨h.wire_ok, h.wake_last, ?_⟩
        intro ho
        have a := h.open_ok ho
        refine ⟨a.noWaiting, a.items, hpcs, fun _ => hall, ?_⟩
        intro hc
        exact absurd hc (herr ho)
    | exited => simpa [writeloop, hi] using h

theorem wireInv_step {s : State} (hv : Inv s) (h : WireInv s) (a : Action) :
    WireInv (step a s) := by
  unfold step
  split
  · exact h
  · cases a with
    | read res =>
      simp only [Read]
      split
      · exact h
      · exact wireInv_of_eq h rfl rfl rfl rfl rfl rfl rfl
    | readFull res =>
      simp only [ReadFull]
      split
      · exact h
      · exact wireInv_of_eq h rfl rfl rfl rfl rfl rfl rfl
    | wnb data => exact wireInv_wnb h data
    | write data => exact wireInv_write h data
    | writer i => exact wireInv_writerStep h i
    | close => exact wireInv_of_closed h rfl rfl rfl
    | closeAsync =>
      simp only
      split
      · exact h
      · exact wireInv_of_closed h rfl rfl rfl
    | closeLock =>
      simp only
      split
      · exact h
      · rename_i hw
        have hc : s.connClosed = true := by
          rcases Bool.eq_false_or_eq_true s.connClosed with ho | ho
          · exact ho
          · exact absurd (h.open_ok ho).noWaiting hw
        refine wireInv_closeLocked (s := { s with closeWaiting := s.closeWaiting - 1 })
          (inv_of_eq hv rfl rfl rfl rfl rfl rfl) (wireInv_of_closed h rfl rfl hc) hc
    | drain i res => exact wireInv_writeloop hv h i res

theorem wireInv_run {s : State} (hv : Inv s) (h : WireInv s) (sched : List Action) :
    WireInv (run sched s) := by
  induction sched generalizing s with
  | nil => exact h
  | cons a rest ih => exact ih (inv_step hv a) (wireInv_step hv h a)

/-- Claim C10: no foreign bytes on the wire.  In every reachable state: (1) every buffer
that was passed to `conn.conn.Write` while the transport was open was the argument of a
`WriteNonBlocking` or `Write` call; (2) in every channel all entries but the last are
producer buffers and an open channel holds producer buffers only, so the wake buffer
"goodbye" of `Close` lies behind all pending producer buffers and none follows it; (3) as
long as the transport is open no channel holds anything but producer buffers and no `Close`
waits for the lock: the wake buffer is sent only after `Close` has closed the transport;
(4) the wake buffer and the zero value of a closed channel were never written to an open
transport. -/
theorem no_foreign_bytes (s : State) (h : Reachable s) :
    (∀ e ∈ s.wire, e.2 = true → e.1.origin = Origin.producer) ∧
    (∀ ch ∈ s.chans, (∀ x ∈ ch.buf.dropLast, x.origin = Origin.producer) ∧
      (ch.closed = false → ∀ x ∈ ch.buf, x.origin = Origin.producer)) ∧
    (s.connClosed = false →
      s.closeWaiting = 0 ∧ ∀ ch ∈ s.chans, ∀ x ∈ ch.buf, x.origin = Origin.producer) ∧
    (∀ e ∈ s.wire, e.1.origin ≠ Origin.producer → e.2 = false) := by
  obtain ⟨sched, rfl⟩ := h
  have w := wireInv_run inv_init wireInv_init sched
  refine ⟨w.wire_ok, ?_, ?_, ?_⟩
  · intro ch hch
    exact ⟨(w.wake_last ch hch).2, (w.wake_last ch hch).1⟩
  · intro ho
    exact ⟨(w.open_ok ho).noWaiting, (w.open_ok ho).items⟩
  · intro e he hne
    rcases Bool.eq_false_or_eq_true e.2 with h1 | h1
    · exact absurd (w.wire_ok e he h1) hne
    · exact h1

/-- Claim C10 on a run in which the wake buffer reaches `conn.conn.Write`: the transport
was closed by then, and the one buffer written to the open transport is a producer buffer. -/
theorem no_foreign_bytes_witness :
    (run wakeTrace init).wire =
      [({ data := [1], origin := Origin.producer }, true),
       ({ data := goodbye, origin := Origin.wake }, false)] ∧
    (run wakeTrace init).connClosed = true ∧
    (({ data := goodbye, origin := Origin.wake }, false) : Item × Bool).2 = false :=
  ⟨by decide, by decide,
   (no_foreign_bytes (run wakeTrace init) ⟨wakeTrace, rfl⟩).2.2.2
     ({ data := goodbye, origin := Origin.wake }, false) (by decide) (by decide)⟩

end Fusion
